import Mathlib

/-!
Shallow embedding of `src/processLogMavens.py` (v0.7.2), the Poker Mavens
hand-history replay and ledger-reconciliation engine.

Modelling conventions:
* Python floats are modelled as exact rationals (ℚ).  The two-decimal
  rendering used by the script's consistency checks, namely the string
  produced by a fixed two-decimal format of a value, is modelled by
  `fmt2 : ℚ → Bool × ℤ` (sign flag together with the magnitude rounded
  half-to-even to cents), so that two values format equally iff their
  `fmt2` images coincide.
* Python dicts keyed by strings are modelled as association lists in
  insertion order; assignment keeps the position of an existing key and
  appends new keys at the end, exactly like a Python dict.
* A missing dict key (Python KeyError) and a failed float conversion
  (Python ValueError) are modelled by `Except Err`; an uncaught Python
  exception aborts the run, hence `Except.error` propagates.
* The regular-expression searches of the script are hand-compiled to
  deterministic scanners over `List Char`.  For the character classes
  involved (digits before a literal `:`, word characters before a literal
  space, digits/dots before a literal `)`), maximal munch coincides with
  the backtracking semantics of `re.search`, because the character that
  must follow each repeated class is never a member of that class.
  The class `\w` is modelled as ASCII alphanumerics plus underscore.
* The narrative NOTES strings of the script are presentation-only text and
  are not carried in the state; printed inconsistency warnings are counted
  in `St.warnings`; the rows appended to `csvRows` (the TransactionEvent
  stream) are carried in `St.events`.
* `St.ghostWins` and `St.ghostContribs` are ghost accumulators (not present
  in the source) recording the total pot amounts credited by win lines and
  debited by contribution lines; they instrument the conservation analysis
  and influence nothing.
-/

namespace PLM

/-- Character class of the regex `\w` plus `-`, i.e. `[\w-]` (ASCII reading). -/
def wordChar (c : Char) : Bool := c.isAlpha || c.isDigit || c = '_' || c = '-'

/-- Character class `[\d.]`. -/
def digitDotChar (c : Char) : Bool := c.isDigit || c = '.'

/-- Consume a literal string at the head of the input; return the rest on success. -/
def litP : List Char → List Char → Option (List Char)
  | [], cs => some cs
  | _ :: _, [] => none
  | p :: ps, c :: cs => if c = p then litP ps cs else none

/-- Maximal munch of a character class; returns (matched, rest). -/
def munch (f : Char → Bool) : List Char → List Char × List Char
  | [] => ([], [])
  | c :: cs =>
    if f c then
      let (m, r) := munch f cs
      (c :: m, r)
    else ([], c :: cs)

/-- Maximal nonempty munch of a character class. -/
def munch1 (f : Char → Bool) (cs : List Char) : Option (List Char × List Char) :=
  let (m, r) := munch f cs
  if m.isEmpty then none else some (m, r)

/-- Match of the seat regex `Seat \d+: ([\w-]+) \(([\d.]+)\)` anchored at the
head of the input; returns the two capture groups (player, amount text). -/
def matchSeatAt (cs : List Char) : Option (List Char × List Char) := do
  let cs ← litP "Seat ".data cs
  let (_, cs) ← munch1 Char.isDigit cs
  let cs ← litP ": ".data cs
  let (p, cs) ← munch1 wordChar cs
  let cs ← litP " (".data cs
  let (a, cs) ← munch1 digitDotChar cs
  let _ ← litP ")".data cs
  pure (p, a)

/-- Leftmost search for the seat regex over a line (re.search semantics). -/
def searchSeat : List Char → Option (List Char × List Char)
  | [] => none
  | c :: cs =>
    match matchSeatAt (c :: cs) with
    | some r => some r
    | none => searchSeat cs

/-- Match of the add-on regex `([\w-]+) adds ([\d.]+) chip` anchored at the head. -/
def matchAddOnAt (cs : List Char) : Option (List Char × List Char) := do
  let (p, cs) ← munch1 wordChar cs
  let cs ← litP " adds ".data cs
  let (a, cs) ← munch1 digitDotChar cs
  let _ ← litP " chip".data cs
  pure (p, a)

/-- Leftmost search for the add-on regex over a line. -/
def searchAddOn : List Char → Option (List Char × List Char)
  | [] => none
  | c :: cs =>
    match matchAddOnAt (c :: cs) with
    | some r => some r
    | none => searchAddOn cs

/-- Match of the tail `Pot *\d? *\(([\d.]+)\)` of the win regex anchored at the
head of the input, returning the captured amount text. -/
def winTailAt (cs : List Char) : Option (List Char) := do
  let cs ← litP "Pot".data cs
  let (_, cs) := munch (· = ' ') cs
  let cs := match cs with
    | d :: r => if d.isDigit then (munch (· = ' ') r).2 else d :: r
    | [] => []
  let cs ← litP "(".data cs
  let (a, cs) ← munch1 digitDotChar cs
  let _ ← litP ")".data cs
  pure a

/-- Rightmost position at which the win tail matches (the greedy `.*` of the
win regex commits to the last such position). -/
def lastWinTail : List Char → Option (List Char)
  | [] => none
  | c :: cs =>
    match lastWinTail cs with
    | some r => some r
    | none => winTailAt (c :: cs)

/-- Match of the win regex `([\w-]+) (wins|splits).*Pot *\d? *\(([\d.]+)\)`
anchored at the head; returns (player, amount text). -/
def matchWinAt (cs : List Char) : Option (List Char × List Char) := do
  let (p, cs) ← munch1 wordChar cs
  let cs ← litP " ".data cs
  let cs ← match litP "wins".data cs with
    | some r => some r
    | none => litP "splits".data cs
  let a ← lastWinTail cs
  pure (p, a)

/-- Leftmost search for the win regex over a line. -/
def searchWin : List Char → Option (List Char × List Char)
  | [] => none
  | c :: cs =>
    match matchWinAt (c :: cs) with
    | some r => some r
    | none => searchWin cs

/-- Prefix of the input up to (excluding) its last `)` character, if any
(the greedy `(.*)\)` group of the pot regex). -/
def upToLastClose : List Char → Option (List Char)
  | [] => none
  | c :: cs =>
    match upToLastClose cs with
    | some r => some (c :: r)
    | none => if c = ')' then some [] else none

/-- Suffix after the first occurrence of a literal pattern. -/
def afterFirst (pat : List Char) : List Char → Option (List Char)
  | [] => litP pat []
  | c :: cs =>
    match litP pat (c :: cs) with
    | some r => some r
    | none => afterFirst pat cs

/-- Capture of the last `Players \((.*)\)` group: the text between the
rightmost `Players (` that is followed by a `)` and the last such `)`. -/
def playersCapture : List Char → Option (List Char)
  | [] => none
  | c :: cs =>
    match playersCapture cs with
    | some r => some r
    | none =>
      match litP "Players (".data (c :: cs) with
      | some rest => upToLastClose rest
      | none => none

/-- Capture group of the pot regex `Rake.*Pot.*Players \((.*)\)` over a line:
text after the first `Rake`, then after the first `Pot` in that, then the
greedy `Players \((.*)\)` capture. -/
def rakePotCapture (cs : List Char) : Option (List Char) := do
  let cs ← afterFirst "Rake".data cs
  let cs ← afterFirst "Pot".data cs
  playersCapture cs

/-- Case-sensitive substring search, i.e. `re.search(pat, line) != None` for a
pattern with no metacharacters. -/
def containsSub (pat : List Char) : List Char → Bool
  | [] => (litP pat []).isSome
  | c :: cs => (litP pat (c :: cs)).isSome || containsSub pat cs

/-- Match of the stand-up sweep regex `Seat \d+: <player>` (the player name is
re.escape'd, hence literal) anchored at the head of the input. -/
def sweepMatchAt (player : List Char) (cs : List Char) : Bool :=
  (do
    let cs ← litP "Seat ".data cs
    let (_, cs) ← munch1 Char.isDigit cs
    let cs ← litP ": ".data cs
    let _ ← litP player cs
    pure ()).isSome

/-- Search for the stand-up sweep regex anywhere in a line. -/
def sweepMatchLine (player : List Char) : List Char → Bool
  | [] => sweepMatchAt player []
  | c :: cs => sweepMatchAt player (c :: cs) || sweepMatchLine player cs

/-- Split a character list on a separator character (Python str.split). -/
def splitOnChar (sep : Char) : List Char → List (List Char)
  | [] => [[]]
  | c :: cs =>
    let r := splitOnChar sep cs
    if c = sep then [] :: r
    else
      match r with
      | [] => [[c]]
      | g :: gs => (c :: g) :: gs

/-- Whitespace strip from both ends (Python str.strip). -/
def stripChars (cs : List Char) : List Char :=
  ((cs.dropWhile (·.isWhitespace)).reverse.dropWhile (·.isWhitespace)).reverse

/-- Value of a digit character. -/
def digitVal (c : Char) : ℕ := c.toNat - '0'.toNat

/-- Natural number denoted by a digit list (most significant first). -/
def digitsToNat (ds : List Char) : ℕ :=
  ds.foldl (fun n c => 10 * n + digitVal c) 0

/-- Conversion of a `[\d.]+` capture to a rational, mirroring Python
`float(...)` on that character set: it succeeds iff the text has at most one
dot and at least one digit. -/
def parseAmount (cs : List Char) : Option ℚ :=
  match splitOnChar '.' cs with
  | [ds] => if ds.isEmpty then none else some (digitsToNat ds)
  | [ds, fs] =>
    if ds.isEmpty && fs.isEmpty then none
    else some ((digitsToNat ds : ℚ) + (digitsToNat fs : ℚ) / (10 : ℚ) ^ fs.length)
  | _ => none

/-- Conversion of a pot-contribution amount to a rational, mirroring Python
`float(...)`: surrounding whitespace is ignored and an optional leading sign is
accepted.  (Exotic float syntax such as exponents, `inf`, `nan` or digit-group
underscores, which never occurs in hand-history logs, is treated as a failure.) -/
def parsePyFloat (cs : List Char) : Option ℚ :=
  let cs := stripChars cs
  match cs with
  | '-' :: rest => (parseAmount rest).map (fun q => -q)
  | '+' :: rest => parseAmount rest
  | _ => parseAmount cs

/-- Rounding of a rational to integer cents, half to even (the rounding used
by a two-decimal float format). -/
def roundCents (q : ℚ) : ℤ :=
  let r := q * 100
  let n := r.floor
  let f := r - (n : ℚ)
  if f < 1 / 2 then n else if 1 / 2 < f then n + 1 else if n % 2 = 0 then n else n + 1

/-- Model of the string produced by the two-decimal format of a value: the
sign flag (a negative value always prints a leading minus, even as `-0.00`)
together with the magnitude in cents.  Two values format to equal strings iff
their `fmt2` images are equal. -/
def fmt2 (q : ℚ) : Bool × ℤ :=
  (decide (q < 0), roundCents (if q < 0 then -q else q))

/-- Per-(player, table) ledger state (the per-table sub-dictionary of the
players dictionary): FIRST, IN, OUT, LATEST, WAITING, LEFT.  The WAITING key
is absent (`none`) until first assigned, exactly as in the script, where
`isNewPlayer` creates the sub-dictionary without it. -/
structure PTState where
  first : ℚ
  amtIn : ℚ
  amtOut : ℚ
  latest : ℚ
  waiting : Option Bool
  left : Bool
deriving DecidableEq, Repr

/-- Per-player ledger state: total IN, total OUT, and the per-table
sub-dictionaries in insertion order. -/
structure PState where
  tIn : ℚ
  tOut : ℚ
  tbls : List (String × PTState)
deriving DecidableEq, Repr

/-- Per-table bookkeeping state: COUNT, SKIPPED, STARTHANDS, EARLIEST, LATEST
(absent until the first processed hand, hence `Option`), LAST. -/
structure TState where
  count : ℕ
  skipped : ℕ
  startHands : Bool
  earliest : Option ℕ
  latestT : Option ℕ
  last : String
deriving DecidableEq, Repr

/-- One row of the transaction log `csvRows`:
(time, table, hand, player, action, amount in, amount out), where the two
amount columns are empty (`none`) or a value. -/
structure Event where
  time : ℕ
  table : String
  hand : String
  player : String
  action : String
  inAmt : Option ℚ
  outAmt : Option ℚ
deriving DecidableEq, Repr

/-- Uncaught Python exceptions of the replay: a missing dictionary key or a
failed float conversion. -/
inductive Err where
  | keyError (key : String)
  | valueError (text : String)
deriving DecidableEq, Repr

/-- Whole engine state: the players and tables dictionaries, the transaction
rows, the count of printed inconsistency warnings, and two ghost accumulators
(total pot wins credited, total pot contributions debited) that instrument
the conservation analysis and affect nothing. -/
structure St where
  players : List (String × PState)
  tbls : List (String × TState)
  events : List Event
  warnings : ℕ
  ghostWins : ℚ
  ghostContribs : ℚ
deriving DecidableEq, Repr

/-- Dictionary lookup over an insertion-ordered association list. -/
def lookupA {α : Type} : String → List (String × α) → Option α
  | _, [] => none
  | k, (k₁, v₁) :: rest => if k₁ = k then some v₁ else lookupA k rest

/-- Dictionary assignment: replace in place when the key exists, append
otherwise (Python dict semantics). -/
def upsertA {α : Type} (k : String) (v : α) : List (String × α) → List (String × α)
  | [] => [(k, v)]
  | (k₁, v₁) :: rest => if k₁ = k then (k, v) :: rest else (k₁, v₁) :: upsertA k v rest

/-- Fresh per-(player, table) sub-dictionary created by `isNewPlayer`
(line 223 of the script): FIRST, IN, LATEST, OUT zero, LEFT false, and no
WAITING key. -/
def emptyPT : PTState :=
  { first := 0, amtIn := 0, amtOut := 0, latest := 0, waiting := none, left := false }

/-- Fresh player entry created by `isNewPlayer` (lines 219, 226). -/
def emptyP : PState := { tIn := 0, tOut := 0, tbls := [] }

/-- Embedding of `isNewPlayer(check, table)` as called from the replay loop
(there the global `player` always equals `check`): create the player entry
and/or the per-table sub-dictionary when absent; return the new-status flag
together with the updated players dictionary. -/
def isNewPlayer (check tbl : String) (ps : List (String × PState)) :
    Bool × List (String × PState) :=
  match lookupA check ps with
  | none => (true, upsertA check { emptyP with tbls := [(tbl, emptyPT)] } ps)
  | some pst =>
    match lookupA tbl pst.tbls with
    | none => (true, upsertA check { pst with tbls := upsertA tbl emptyPT pst.tbls } ps)
    | some _ => (false, ps)

/-- Combined lookup `players[p]`, `players[p][tbl]`. -/
def getPT (p tbl : String) (st : St) : Option (PState × PTState) :=
  match lookupA p st.players with
  | none => none
  | some pst =>
    match lookupA tbl pst.tbls with
    | none => none
    | some pts => some (pst, pts)

/-- Combined store of a player entry and its per-table sub-dictionary. -/
def setPT (p tbl : String) (pst : PState) (pts : PTState) (st : St) : St :=
  { st with players := upsertA p { pst with tbls := upsertA tbl pts pst.tbls } st.players }

/-- Append one transaction row. -/
def addEvent (time : ℕ) (tbl hand p action : String) (inAmt outAmt : Option ℚ)
    (st : St) : St :=
  { st with events := st.events ++ [⟨time, tbl, hand, p, action, inAmt, outAmt⟩] }

/-- Flag update of lines 496-503: after a seat line is resolved, LEFT is
cleared and WAITING is re-derived from the presence of the (case-sensitive)
substrings `sitting` or `waiting` in the same line, passed here as `sitFlag`. -/
def setFlags (p tbl : String) (sitFlag : Bool) (st : St) : Except Err St :=
  match getPT p tbl st with
  | none => Except.error (Err.keyError p)
  | some (pst, pts) =>
    Except.ok (setPT p tbl pst { pts with left := false, waiting := some sitFlag } st)

/-- Seat/stack snapshot handler, lines 428-494 of the script (everything
before the final flag update): new-player creation with an initial buy-in, or
the consistency comparison of the declared stack against LATEST, with the
waiting/left adjustment branch and the unexpected-inconsistency branch. -/
def seatCore (time : ℕ) (tbl hand p : String) (stack : ℚ) (st : St) :
    Except Err St :=
  let (isNew, ps1) := isNewPlayer p tbl st.players
  let st1 : St := { st with players := ps1 }
  match getPT p tbl st1 with
    | none => Except.error (Err.keyError p)
    | some (pst, pts) =>
      if isNew then
        Except.ok (addEvent time tbl hand p "initial buy in" (some stack) none
          (setPT p tbl { pst with tIn := pst.tIn + stack }
            { pts with amtIn := stack, first := stack, latest := stack } st1))
      else
        if pts.latest ≠ stack then
          match pts.waiting with
          | none => Except.error (Err.keyError "sitting out")
          | some w =>
            if w || pts.left then
              if stack > pts.latest then
                let adjustment := stack - pts.latest
                if fmt2 adjustment ≠ fmt2 0 then
                  Except.ok (addEvent time tbl hand p "add on while waiting"
                    (some adjustment) none
                    (setPT p tbl { pst with tIn := pst.tIn + adjustment }
                      { pts with latest := stack, amtIn := pts.amtIn + adjustment } st1))
                else Except.ok st1
              else
                let adjustment := pts.latest - stack
                if fmt2 adjustment ≠ fmt2 0 then
                  Except.ok (addEvent time tbl hand p "reduction while waiting"
                    none (some adjustment)
                    (setPT p tbl { pst with tOut := pst.tOut + adjustment }
                      { pts with latest := stack, amtOut := pts.amtOut + adjustment } st1))
                else Except.ok st1
            else
              if fmt2 stack ≠ fmt2 pts.latest then
                let st1 := { st1 with warnings := st1.warnings + 1 }
                if stack > pts.latest then
                  let adjustment := stack - pts.latest
                  if fmt2 adjustment ≠ fmt2 0 then
                    Except.ok (addEvent time tbl hand p
                      "adjusting for consistency - adding on " (some adjustment) none
                      (setPT p tbl { pst with tIn := pst.tIn + adjustment }
                        { pts with latest := stack, amtIn := pts.amtIn + adjustment } st1))
                  else Except.ok st1
                else
                  let adjustment := pts.latest - stack
                  if fmt2 adjustment ≠ fmt2 0 then
                    Except.ok (addEvent time tbl hand p
                      "adjusting for consistency - deducting " (some adjustment) none
                      (setPT p tbl { pst with tOut := pst.tOut + adjustment }
                        { pts with latest := stack, amtOut := pts.amtOut + adjustment } st1))
                  else Except.ok st1
              else Except.ok st1
        else Except.ok st1

/-- Seat/stack snapshot handler, lines 428-503 of the script: the core
comparison followed by the LEFT/WAITING flag update of lines 496-503. -/
def seatStep (time : ℕ) (tbl hand p : String) (stack : ℚ) (sitFlag : Bool)
    (st : St) : Except Err St :=
  seatCore time tbl hand p stack st >>= setFlags p tbl sitFlag

/-- Add-on handler, lines 506-519: create the (player, table) state if absent,
then credit the added amount to IN (player and table) and to LATEST, and emit
an "add on" row. -/
def addOnStep (time : ℕ) (tbl hand p : String) (additional : ℚ) (st : St) :
    Except Err St :=
  let (_, ps1) := isNewPlayer p tbl st.players
  let st1 : St := { st with players := ps1 }
  match getPT p tbl st1 with
  | none => Except.error (Err.keyError p)
  | some (pst, pts) =>
    Except.ok (addEvent time tbl hand p "add on" (some additional) none
      (setPT p tbl { pst with tIn := pst.tIn + additional }
        { pts with amtIn := pts.amtIn + additional, latest := pts.latest + additional } st1))

/-- Pot-win handler, lines 523-527: `players[player][table][LATEST] += win`;
the lookups raise KeyError when the (player, table) state does not exist. -/
def winStep (tbl p : String) (win : ℚ) (st : St) : Except Err St :=
  match lookupA p st.players with
  | none => Except.error (Err.keyError p)
  | some pst =>
    match lookupA tbl pst.tbls with
    | none => Except.error (Err.keyError tbl)
    | some pts =>
      Except.ok { setPT p tbl pst { pts with latest := pts.latest + win } st with
                  ghostWins := st.ghostWins + win }

/-- A single pot-contribution entry, lines 536-538: split on `:` into exactly
two parts (ValueError otherwise), strip the name, look up the (player, table)
state (KeyError when absent), convert the amount, and debit LATEST. -/
def contribStep (tbl : String) (st : St) (entry : List Char) : Except Err St :=
  match splitOnChar ':' entry with
  | [pcs, acs] =>
    match lookupA (String.mk (stripChars pcs)) st.players with
    | none => Except.error (Err.keyError (String.mk (stripChars pcs)))
    | some pst =>
      match lookupA tbl pst.tbls with
      | none => Except.error (Err.keyError tbl)
      | some pts =>
        match parsePyFloat acs with
        | none => Except.error (Err.valueError (String.mk acs))
        | some amt =>
          Except.ok { setPT (String.mk (stripChars pcs)) tbl pst
                        { pts with latest := pts.latest - amt } st with
                      ghostContribs := st.ghostContribs + amt }
  | _ => Except.error (Err.valueError (String.mk entry))

/-- Seat search of a line (line 428) feeding the snapshot handler; the float
conversion of the captured amount happens before the handler runs. -/
def seatPart (time : ℕ) (tbl hand : String) (line : String) (st : St) :
    Except Err St :=
  match searchSeat line.data with
  | some (pcs, acs) =>
    match parseAmount acs with
    | none => Except.error (Err.valueError (String.mk acs))
    | some stack =>
      seatStep time tbl hand (String.mk pcs) stack
        (containsSub "sitting".data line.data || containsSub "waiting".data line.data) st
  | none => Except.ok st

/-- Add-on search of a line (line 506) feeding the add-on handler. -/
def addOnPart (time : ℕ) (tbl hand : String) (line : String) (st : St) :
    Except Err St :=
  match searchAddOn line.data with
  | some (pcs, acs) =>
    match parseAmount acs with
    | none => Except.error (Err.valueError (String.mk acs))
    | some additional => addOnStep time tbl hand (String.mk pcs) additional st
  | none => Except.ok st

/-- Win search of a line (line 523) feeding the pot-win handler. -/
def winPart (tbl : String) (line : String) (st : St) : Except Err St :=
  match searchWin line.data with
  | some (pcs, acs) =>
    match parseAmount acs with
    | none => Except.error (Err.valueError (String.mk acs))
    | some win => winStep tbl (String.mk pcs) win st
  | none => Except.ok st

/-- Pot-contribution search of a line (line 532) feeding the contribution
handler for each comma-separated entry in order. -/
def potPart (tbl : String) (line : String) (st : St) : Except Err St :=
  match rakePotCapture line.data with
  | some potString => (splitOnChar ',' potString).foldlM (contribStep tbl) st
  | none => Except.ok st

/-- Processing of one line of a hand's text, lines 426-538: the four regex
searches are applied in sequence (they are not mutually exclusive), each
firing its handler on a match. -/
def processLine (time : ℕ) (tbl hand : String) (st : St) (line : String) :
    Except Err St :=
  seatPart time tbl hand line st >>= fun st₁ =>
  addOnPart time tbl hand line st₁ >>= fun st₂ =>
  winPart tbl line st₂ >>= fun st₃ =>
  potPart tbl line st₃

/-- Force-close of one player by the end-of-hand sweep (lines 545-554): cash
out LATEST, zero it, set WAITING and LEFT, and emit a "stood up with" row.
Applied only when the player has state at the table and is not already left. -/
def closeOutSweep (time : ℕ) (tbl hand p : String) (st : St) : St :=
  match getPT p tbl st with
  | none => st
  | some (pst, pts) =>
    if pts.left then st
    else
      addEvent time tbl hand p "stood up with" none (some pts.latest)
        (setPT p tbl { pst with tOut := pst.tOut + pts.latest }
          { pts with amtOut := pts.amtOut + pts.latest, latest := 0,
                     waiting := some true, left := true } st)

/-- End-of-hand sweep, lines 542-554: every known player whose name does not
occur in the hand's text in the pattern `Seat <digits>: <name>` is
force-closed at this hand's table. -/
def sweepStep (time : ℕ) (tbl hand : String) (text : List String) (st : St) : St :=
  (st.players.map Prod.fst).foldl
    (fun st p =>
      if text.any (fun l => sweepMatchLine p.data l.data) then st
      else closeOutSweep time tbl hand p st) st

/-- One extracted hand record: reduced hand number, local suffix, timestamp
(abstracted to a natural number), the table (absent when the body has no
`Table:` line), and the body lines. -/
structure Hand where
  num : String
  localSeq : String
  time : ℕ
  table : Option String
  text : List String
deriving DecidableEq, Repr

/-- Line-processing and end-of-hand sweep of one gated-open hand
(lines 426-554): process each body line in order, then run the sweep. -/
def replayBody (tbl : String) (h : Hand) (st : St) : Except Err St :=
  match h.text.foldlM (processLine h.time tbl h.num) st with
  | Except.error e => Except.error e
  | Except.ok st₁ => Except.ok (sweepStep h.time tbl h.num h.text st₁)

/-- Replay of one hand, lines 403-554: read the hand's table (KeyError when
the hand has none), apply the start gate, update the table bookkeeping,
process each body line, and run the end-of-hand sweep. -/
def replayHand (st : St) (h : Hand) : Except Err St :=
  match h.table with
  | none => Except.error (Err.keyError "table")
  | some tbl =>
    match lookupA tbl st.tbls with
    | none => Except.error (Err.keyError tbl)
    | some ts =>
      if ¬ ts.startHands ∧ h.localSeq ≠ "1" then
        Except.ok { st with tbls := upsertA tbl { ts with skipped := ts.skipped + 1 } st.tbls }
      else
        let ts := if ¬ ts.startHands then
          { ts with earliest := some h.time, startHands := true } else ts
        let ts := { ts with count := ts.count + 1, last := h.num, latestT := some h.time }
        let ts := if ts.earliest = none then { ts with earliest := some h.time } else ts
        replayBody tbl h { st with tbls := upsertA tbl ts st.tbls }

/-- Replay of a list of hands in the given order. -/
def replayHands (st : St) (hs : List Hand) : Except Err St :=
  hs.foldlM replayHand st

/-- Fresh table entry created on first sighting of a table name during
extraction (lines 383-387): STARTHANDS is the global start flag, LATEST absent. -/
def freshT (startHands : Bool) : TState :=
  { count := 0, skipped := 0, startHands := startHands, earliest := none,
    latestT := none, last := "" }

/-- Tables dictionary produced by the extraction pass: one entry per table
name in order of first sighting, gated closed when skip-prior-hands is on. -/
def initTables (skipPriorHands : Bool) (hs : List Hand) : List (String × TState) :=
  hs.foldl
    (fun acc h =>
      match h.table with
      | some t => if (lookupA t acc).isSome then acc else acc ++ [(t, freshT (¬ skipPriorHands))]
      | none => acc) []

/-- Initial engine state. -/
def initSt (tbls : List (String × TState)) : St :=
  { players := [], tbls := tbls, events := [], warnings := 0,
    ghostWins := 0, ghostContribs := 0 }

/-- Chronological ordering of the hands: a stable sort ascending by timestamp
(Python sorted over the insertion-ordered keys). -/
def sortHands (hs : List Hand) : List Hand :=
  List.insertionSort (fun a b => a.time ≤ b.time) hs

/-- Whole replay phase: build the tables dictionary from extraction, sort the
hands by timestamp, and replay them in order. -/
def runSession (skipPriorHands : Bool) (hs : List Hand) : Except Err St :=
  replayHands (initSt (initTables skipPriorHands hs)) (sortHands hs)

/-- Force-close of one player by the finalizer (lines 576-585): like the
sweep's close but without setting WAITING, with an "ended table with" row
stamped with the table's LATEST time and LAST hand. -/
def closeOutFinal (time : ℕ) (tbl hand p : String) (st : St) : St :=
  match getPT p tbl st with
  | none => st
  | some (pst, pts) =>
    if pts.left then st
    else
      addEvent time tbl hand p "ended table with" none (some pts.latest)
        (setPT p tbl { pst with tOut := pst.tOut + pts.latest }
          { pts with amtOut := pts.amtOut + pts.latest, latest := 0, left := true } st)

/-- Finalization for one table: the summary reads the table's LATEST timestamp
(line 570; KeyError when the key was never written), then force-closes every
player still not left at the table. -/
def finalizeTable (st : St) (e : String × TState) : Except Err St :=
  match e.2.latestT with
  | none => Except.error (Err.keyError "latest")
  | some time =>
    Except.ok ((st.players.map Prod.fst).foldl
      (fun st p => closeOutFinal time e.1 e.2.last p st) st)

/-- End-of-run finalizer, lines 567-585: per table, force-close the remaining
seated players. -/
def finalize (st : St) : Except Err St :=
  st.tbls.foldlM finalizeTable st

/-- Final tally, lines 587-624: the session net balance accumulates, per
player, the "down" difference (cash in exceeding cash out) minus the "up"
difference. -/
def netBalanceOf (st : St) : ℚ :=
  st.players.foldl
    (fun nb pe =>
      let cashIn := pe.2.tIn
      let cashOut := pe.2.tOut
      if cashIn = cashOut then nb
      else if cashIn > cashOut then nb + (cashIn - cashOut)
      else nb - (cashOut - cashIn)) 0

/-- Replay followed by finalization. -/
def sessionFinal (skipPriorHands : Bool) (hs : List Hand) : Except Err St := do
  let st ← runSession skipPriorHands hs
  finalize st

/-- Session net balance of a fully replayed and finalized session. -/
def sessionNet (skipPriorHands : Bool) (hs : List Hand) : Except Err ℚ :=
  (sessionFinal skipPriorHands hs).map netBalanceOf

/-- Players named by the seat lines of a hand's text: group 1 of each line's
seat-regex match. -/
def seatPlayersOf (text : List String) : List String :=
  text.filterMap (fun l => (searchSeat l.data).map (fun r => String.mk r.1))

/-- Modelled from the spec: case-insensitive substring containment, stating
the claim's reading that the waiting flag is derived by a case-insensitive
match; the script itself matches case-sensitively. -/
def containsCI (pat : List Char) (cs : List Char) : Bool :=
  containsSub (pat.map Char.toLower) (cs.map Char.toLower)

/-! Monadic bind unfolding for `Except`, and association-list dictionary lemmas. -/

theorem exceptBind_ok {ε α β : Type} (a : α) (f : α → Except ε β) :
    (Except.ok a >>= f) = f a := rfl

theorem exceptBind_error {ε α β : Type} (e : ε) (f : α → Except ε β) :
    ((Except.error e : Except ε α) >>= f) = Except.error e := rfl

theorem lookupA_upsertA_self {α : Type} (k : String) (v : α) (l : List (String × α)) :
    lookupA k (upsertA k v l) = some v := by
  induction l with
  | nil => simp [upsertA, lookupA]
  | cons hd tl ih =>
    obtain ⟨k₁, v₁⟩ := hd
    by_cases h : k₁ = k
    · simp [upsertA, lookupA, h]
    · simp [upsertA, lookupA, h, ih]

theorem lookupA_upsertA_ne {α : Type} {q k : String} (v : α) (l : List (String × α))
    (h : q ≠ k) : lookupA q (upsertA k v l) = lookupA q l := by
  have h' : k ≠ q := Ne.symm h
  induction l with
  | nil => simp [upsertA, lookupA, h']
  | cons hd tl ih =>
    obtain ⟨k₁, v₁⟩ := hd
    by_cases h₁ : k₁ = k
    · subst h₁
      simp [upsertA, lookupA, h']
    · simp [upsertA, lookupA, h₁, ih]

theorem keys_upsertA_found {α : Type} {k : String} {v : α} {l : List (String × α)}
    (h : (lookupA k l).isSome) :
    (upsertA k v l).map Prod.fst = l.map Prod.fst := by
  induction l with
  | nil => simp [lookupA] at h
  | cons hd tl ih =>
    obtain ⟨k₁, v₁⟩ := hd
    by_cases h₁ : k₁ = k
    · simp [upsertA, h₁]
    · simp [lookupA, h₁] at h
      simp [upsertA, h₁, ih h]

theorem mem_upsertA {α : Type} {x : String × α} {k : String} {v : α}
    {l : List (String × α)} (h : x ∈ upsertA k v l) : x = (k, v) ∨ x ∈ l := by
  induction l with
  | nil => simpa [upsertA] using h
  | cons hd tl ih =>
    obtain ⟨k₁, v₁⟩ := hd
    by_cases h₁ : k₁ = k
    · simp [upsertA, h₁] at h
      rcases h with h | h
      · exact Or.inl (by simp [h])
      · exact Or.inr (by simp [h])
    · simp [upsertA, h₁] at h
      rcases h with h | h
      · exact Or.inr (by simp [h])
      · rcases ih h with h | h
        · exact Or.inl h
        · exact Or.inr (by simp [h])

/-- Sum of a rational-valued projection over a dictionary's values. -/
def sumA {α : Type} (f : α → ℚ) (l : List (String × α)) : ℚ :=
  (l.map (fun x => f x.2)).sum

theorem sumA_nil {α : Type} (f : α → ℚ) : sumA f [] = 0 := rfl

theorem sumA_cons {α : Type} (f : α → ℚ) (x : String × α) (l : List (String × α)) :
    sumA f (x :: l) = f x.2 + sumA f l := by
  simp [sumA]

theorem sumA_append {α : Type} (f : α → ℚ) (l₁ l₂ : List (String × α)) :
    sumA f (l₁ ++ l₂) = sumA f l₁ + sumA f l₂ := by
  simp [sumA]

theorem sumA_upsertA_found {α : Type} (f : α → ℚ) {k : String} (v : α)
    {l : List (String × α)} {w : α} (h : lookupA k l = some w) :
    sumA f (upsertA k v l) = sumA f l + f v - f w := by
  induction l with
  | nil => simp [lookupA] at h
  | cons hd tl ih =>
    obtain ⟨k₁, v₁⟩ := hd
    by_cases h₁ : k₁ = k
    · simp [lookupA, h₁] at h
      subst h
      simp [upsertA, h₁, sumA_cons]
      ring
    · simp [lookupA, h₁] at h
      simp [upsertA, h₁, sumA_cons, ih h]
      ring

theorem sumA_upsertA_none {α : Type} (f : α → ℚ) {k : String} (v : α)
    {l : List (String × α)} (h : lookupA k l = none) :
    sumA f (upsertA k v l) = sumA f l + f v := by
  induction l with
  | nil => simp [upsertA, sumA_cons, sumA_nil]
  | cons hd tl ih =>
    obtain ⟨k₁, v₁⟩ := hd
    by_cases h₁ : k₁ = k
    · simp [lookupA, h₁] at h
    · simp [lookupA, h₁] at h
      simp [upsertA, h₁, sumA_cons, ih h]
      ring

theorem replayHands_append (st₀ : St) (l₁ l₂ : List Hand) :
    replayHands st₀ (l₁ ++ l₂) =
      (replayHands st₀ l₁ >>= fun st => replayHands st l₂) := by
  induction l₁ generalizing st₀ with
  | nil => simp [replayHands, exceptBind_ok]
  | cons h t ih =>
    simp only [replayHands, List.cons_append, List.foldlM_cons] at *
    cases replayHand st₀ h with
    | error e => simp [exceptBind_error]
    | ok st₁ => simp [exceptBind_ok, ih]

/-- C4 (confirmed). New player invariant: a seat/stack snapshot for a
(player, table) pair with no existing state succeeds, sets
firstBuyIn = per-table amountIn = latestStack = the declared amount (with
amountOut zero, left false, and waiting re-derived from the line), adds the
amount to the player's totalIn, and appends exactly one "initial buy in"
transaction row. -/
theorem C4_new_player (time : ℕ) (tbl hand p : String) (stack : ℚ) (sitFlag : Bool)
    (st : St) (hnew : getPT p tbl st = none) :
    (∃ st₁, seatStep time tbl hand p stack sitFlag st = Except.ok st₁) ∧
    ∀ st', seatStep time tbl hand p stack sitFlag st = Except.ok st' →
      (∃ pst', lookupA p st'.players = some pst' ∧
        lookupA tbl pst'.tbls = some
          { first := stack, amtIn := stack, amtOut := 0, latest := stack,
            waiting := some sitFlag, left := false } ∧
        pst'.tIn = (match lookupA p st.players with
          | some pst => pst.tIn
          | none => 0) + stack) ∧
      st'.events = st.events ++
        [⟨time, tbl, hand, p, "initial buy in", some stack, none⟩] := by
  unfold getPT at hnew
  cases hp : lookupA p st.players with
  | none =>
    constructor
    · simp [seatStep, seatCore, isNewPlayer, hp, setFlags, getPT, setPT, addEvent,
        lookupA_upsertA_self, lookupA, exceptBind_ok]
    · intro st' h
      simp [seatStep, seatCore, isNewPlayer, hp, setFlags, getPT, setPT, addEvent,
        lookupA_upsertA_self, lookupA, exceptBind_ok] at h
      subst h
      simp [hp, lookupA_upsertA_self, lookupA, emptyP, emptyPT]
  | some pst =>
    rw [hp] at hnew
    cases ht : lookupA tbl pst.tbls with
    | none =>
      constructor
      · simp [seatStep, seatCore, isNewPlayer, hp, ht, setFlags, getPT, setPT, addEvent,
          lookupA_upsertA_self, lookupA, exceptBind_ok]
      · intro st' h
        simp [seatStep, seatCore, isNewPlayer, hp, ht, setFlags, getPT, setPT, addEvent,
          lookupA_upsertA_self, lookupA, exceptBind_ok] at h
        subst h
        simp [hp, lookupA_upsertA_self, lookupA, emptyPT]
    | some pts => simp [ht] at hnew

/-- Witness for C4 at a concrete input: Alice's first snapshot of 100 at
table T from an empty state. -/
theorem C4_new_player_witness :
    getPT "Alice" "T" (initSt []) = none ∧
    ((∃ st₁, seatStep 10 "T" "100" "Alice" 100 false (initSt []) = Except.ok st₁) ∧
    ∀ st', seatStep 10 "T" "100" "Alice" 100 false (initSt []) = Except.ok st' →
      (∃ pst', lookupA "Alice" st'.players = some pst' ∧
        lookupA "T" pst'.tbls = some
          { first := 100, amtIn := 100, amtOut := 0, latest := 100,
            waiting := some false, left := false } ∧
        pst'.tIn = (match lookupA "Alice" (initSt []).players with
          | some pst => pst.tIn
          | none => 0) + 100) ∧
      st'.events = (initSt []).events ++
        [⟨10, "T", "100", "Alice", "initial buy in", some 100, none⟩]) :=
  ⟨rfl, C4_new_player 10 "T" "100" "Alice" 100 false (initSt []) rfl⟩

/-- C10 (confirmed). Pot-win and pot-contribution handlers never create
player or player-table state: when the named player has no state at the
hand's table, both fail with a lookup error, whereas the seat-snapshot and
add-on handlers succeed and create the missing state first. -/
theorem C10_no_state_creation (time : ℕ) (tbl hand p : String) (amt : ℚ)
    (sitFlag : Bool) (entry : List Char) (pcs acs : List Char) (st : St)
    (hnew : getPT p tbl st = none)
    (hsplit : splitOnChar ':' entry = [pcs, acs])
    (hname : String.mk (stripChars pcs) = p) :
    (∃ e, winStep tbl p amt st = Except.error e) ∧
    (∃ e, contribStep tbl st entry = Except.error e) ∧
    (∃ st', seatStep time tbl hand p amt sitFlag st = Except.ok st' ∧
      (getPT p tbl st').isSome) ∧
    (∃ st', addOnStep time tbl hand p amt st = Except.ok st' ∧
      (getPT p tbl st').isSome) := by
  unfold getPT at hnew
  cases hp : lookupA p st.players with
  | none =>
    refine ⟨⟨Err.keyError p, by simp [winStep, hp]⟩,
      ⟨Err.keyError p, by simp [contribStep, hsplit, hname, hp]⟩, ?_, ?_⟩
    · have hex : ∃ st₁, seatStep time tbl hand p amt sitFlag st = Except.ok st₁ := by
        simp [seatStep, seatCore, isNewPlayer, hp, setFlags, getPT, setPT, addEvent,
          lookupA_upsertA_self, lookupA, exceptBind_ok]
      obtain ⟨st₁, hrun⟩ := hex
      refine ⟨st₁, hrun, ?_⟩
      simp [seatStep, seatCore, isNewPlayer, hp, setFlags, getPT, setPT, addEvent,
        lookupA_upsertA_self, lookupA, exceptBind_ok] at hrun
      subst hrun
      simp [getPT, setPT, lookupA_upsertA_self, lookupA]
    · have hex : ∃ st₁, addOnStep time tbl hand p amt st = Except.ok st₁ := by
        simp [addOnStep, isNewPlayer, hp, getPT, setPT, addEvent,
          lookupA_upsertA_self, lookupA]
      obtain ⟨st₁, hrun⟩ := hex
      refine ⟨st₁, hrun, ?_⟩
      simp [addOnStep, isNewPlayer, hp, getPT, setPT, addEvent,
        lookupA_upsertA_self, lookupA] at hrun
      subst hrun
      simp [getPT, setPT, lookupA_upsertA_self, lookupA]
  | some pst =>
    rw [hp] at hnew
    cases ht : lookupA tbl pst.tbls with
    | none =>
      refine ⟨⟨Err.keyError tbl, by simp [winStep, hp, ht]⟩,
        ⟨Err.keyError tbl, by simp [contribStep, hsplit, hname, hp, ht]⟩, ?_, ?_⟩
      · have hex : ∃ st₁, seatStep time tbl hand p amt sitFlag st = Except.ok st₁ := by
          simp [seatStep, seatCore, isNewPlayer, hp, ht, setFlags, getPT, setPT, addEvent,
            lookupA_upsertA_self, lookupA, exceptBind_ok]
        obtain ⟨st₁, hrun⟩ := hex
        refine ⟨st₁, hrun, ?_⟩
        simp [seatStep, seatCore, isNewPlayer, hp, ht, setFlags, getPT, setPT, addEvent,
          lookupA_upsertA_self, lookupA, exceptBind_ok] at hrun
        subst hrun
        simp [getPT, setPT, lookupA_upsertA_self, lookupA]
      · have hex : ∃ st₁, addOnStep time tbl hand p amt st = Except.ok st₁ := by
          simp [addOnStep, isNewPlayer, hp, ht, getPT, setPT, addEvent,
            lookupA_upsertA_self, lookupA]
        obtain ⟨st₁, hrun⟩ := hex
        refine ⟨st₁, hrun, ?_⟩
        simp [addOnStep, isNewPlayer, hp, ht, getPT, setPT, addEvent,
          lookupA_upsertA_self, lookupA] at hrun
        subst hrun
        simp [getPT, setPT, lookupA_upsertA_self, lookupA]
    | some pts => simp [ht] at hnew

/-- Witness for C10 at a concrete input: a win, contribution, seat and
add-on for Ghost who has no state in the empty initial state. -/
theorem C10_no_state_creation_witness :
    getPT "Ghost" "T" (initSt []) = none ∧
    ((∃ e, winStep "T" "Ghost" 5 (initSt []) = Except.error e) ∧
    (∃ e, contribStep "T" (initSt []) "Ghost: 5".data = Except.error e) ∧
    (∃ st', seatStep 10 "T" "100" "Ghost" 5 false (initSt []) = Except.ok st' ∧
      (getPT "Ghost" "T" st').isSome) ∧
    (∃ st', addOnStep 10 "T" "100" "Ghost" 5 (initSt []) = Except.ok st' ∧
      (getPT "Ghost" "T" st').isSome)) :=
  ⟨rfl, C10_no_state_creation 10 "T" "100" "Ghost" 5 false
    "Ghost: 5".data "Ghost".data " 5".data (initSt []) rfl (by decide) (by decide)⟩

/-- C2 (corrected). Unexpected-inconsistency handling for an active player
whose declared stack formats differently from the expected LATEST: the engine
never aborts; it prints a warning, and then, exactly when the absolute delta
itself formats to a nonzero two-decimal amount, force-corrects latestStack to
the declared amount, books the delta on the correct side of the ledger at both
levels, and emits one event labeled "adjusting for consistency"; when the
delta formats to 0.00, only the warning happens and neither the ledger, nor
latestStack, nor the event stream changes. -/
theorem C2_inconsistency (time : ℕ) (tbl hand p : String) (stack : ℚ)
    (sitFlag : Bool) (st : St) (pst : PState) (pts : PTState) (w : Bool)
    (hp : lookupA p st.players = some pst)
    (ht : lookupA tbl pst.tbls = some pts)
    (hw : pts.waiting = some w)
    (hnw : w = false) (hnl : pts.left = false)
    (hfmt : fmt2 stack ≠ fmt2 pts.latest) :
    ∃ st' pst' pts',
      seatStep time tbl hand p stack sitFlag st = Except.ok st' ∧
      st'.warnings = st.warnings + 1 ∧
      lookupA p st'.players = some pst' ∧
      lookupA tbl pst'.tbls = some pts' ∧
      pts'.waiting = some sitFlag ∧ pts'.left = false ∧
      (fmt2 (if stack > pts.latest then stack - pts.latest else pts.latest - stack) ≠ fmt2 0 →
        pts'.latest = stack ∧
        (stack > pts.latest →
          pts'.amtIn = pts.amtIn + (stack - pts.latest) ∧
          pst'.tIn = pst.tIn + (stack - pts.latest) ∧
          pts'.amtOut = pts.amtOut ∧ pst'.tOut = pst.tOut ∧
          st'.events = st.events ++
            [⟨time, tbl, hand, p, "adjusting for consistency - adding on ",
              some (stack - pts.latest), none⟩]) ∧
        (¬ stack > pts.latest →
          pts'.amtOut = pts.amtOut + (pts.latest - stack) ∧
          pst'.tOut = pst.tOut + (pts.latest - stack) ∧
          pts'.amtIn = pts.amtIn ∧ pst'.tIn = pst.tIn ∧
          st'.events = st.events ++
            [⟨time, tbl, hand, p, "adjusting for consistency - deducting ",
              some (pts.latest - stack), none⟩])) ∧
      (fmt2 (if stack > pts.latest then stack - pts.latest else pts.latest - stack) = fmt2 0 →
        pts'.latest = pts.latest ∧ pts'.amtIn = pts.amtIn ∧ pts'.amtOut = pts.amtOut ∧
        pst'.tIn = pst.tIn ∧ pst'.tOut = pst.tOut ∧ st'.events = st.events) := by
  subst hnw
  have hne : pts.latest ≠ stack := by
    intro he
    exact hfmt (by rw [he])
  by_cases hgt : stack > pts.latest
  · by_cases hz : fmt2 (stack - pts.latest) = fmt2 0 <;>
      simp [seatStep, seatCore, isNewPlayer, hp, ht, hne, hw, hnl, hfmt, hgt, hz,
        setFlags, getPT, setPT, addEvent, lookupA_upsertA_self, exceptBind_ok]
  · by_cases hz : fmt2 (pts.latest - stack) = fmt2 0 <;>
      simp [seatStep, seatCore, isNewPlayer, hp, ht, hne, hw, hnl, hfmt, hgt, hz,
        setFlags, getPT, setPT, addEvent, lookupA_upsertA_self, exceptBind_ok]

/-- Hand 1 of the C2 counterexample session: Alice buys in for 0.0051. -/
def c2Hand1 : Hand :=
  { num := "100", localSeq := "1", time := 10, table := some "T",
    text := ["Table: T", "Seat 1: Alice (0.0051)"] }

/-- Hand 2 of the C2 counterexample session: Alice declares 0.0049, which
formats to "0.00" while the expected 0.0051 formats to "0.01". -/
def c2Hand2 : Hand :=
  { num := "101", localSeq := "2", time := 20, table := some "T",
    text := ["Table: T", "Seat 1: Alice (0.0049)"] }

/-- Counterexample to C2 as stated: an active player declares 0.0049 against
an expected 0.0051; the two amounts differ at two-decimal formatting
precision, so the claim asserts that latestStack is set to the declared
amount, the delta is booked, and an adjustment event is emitted — yet after
the replay the warning was printed (warnings = 1) but latestStack is still
0.0051, no ledger amount changed, and the only event of the whole session is
the initial buy-in (the 0.0002 delta itself formats to "0.00", so the script
skips every update after the warning). -/
theorem C2_counterexample :
    fmt2 (49 / 10000) ≠ fmt2 (51 / 10000) ∧
    (runSession false [c2Hand1, c2Hand2]).map St.warnings = Except.ok 1 ∧
    (runSession false [c2Hand1, c2Hand2]).map (fun st => getPT "Alice" "T" st) =
      Except.ok (some
        (⟨51 / 10000, 0,
          [("T", ⟨51 / 10000, 51 / 10000, 0, 51 / 10000, some false, false⟩)]⟩,
         ⟨51 / 10000, 51 / 10000, 0, 51 / 10000, some false, false⟩)) ∧
    (runSession false [c2Hand1, c2Hand2]).map St.events =
      Except.ok [⟨10, "T", "100", "Alice", "initial buy in", some (51 / 10000), none⟩] := by
  refine ⟨by with_unfolding_all decide, ?_, ?_, ?_⟩ <;> with_unfolding_all rfl

/-- State for the C2 witness: Alice active at table T with 100 expected. -/
def c2wSt : St :=
  { players := [("Alice",
      { tIn := 100, tOut := 0,
        tbls := [("T",
          { first := 100, amtIn := 100, amtOut := 0, latest := 100,
            waiting := some false, left := false })] })],
    tbls := [], events := [], warnings := 0, ghostWins := 0, ghostContribs := 0 }

/-- Player entry of `c2wSt`. -/
def c2wPst : PState :=
  { tIn := 100, tOut := 0,
    tbls := [("T",
      { first := 100, amtIn := 100, amtOut := 0, latest := 100,
        waiting := some false, left := false })] }

/-- Per-table entry of `c2wSt`. -/
def c2wPts : PTState :=
  { first := 100, amtIn := 100, amtOut := 0, latest := 100,
    waiting := some false, left := false }

/-- Witness for the C2 theorem at a concrete input: Alice, active with an
expected stack of 100, declares 130. -/
theorem C2_inconsistency_witness :
    lookupA "Alice" c2wSt.players = some c2wPst ∧
    lookupA "T" c2wPst.tbls = some c2wPts ∧
    c2wPts.waiting = some false ∧ c2wPts.left = false ∧
    fmt2 130 ≠ fmt2 c2wPts.latest ∧
    (∃ st' pst' pts',
      seatStep 20 "T" "101" "Alice" 130 false c2wSt = Except.ok st' ∧
      st'.warnings = c2wSt.warnings + 1 ∧
      lookupA "Alice" st'.players = some pst' ∧
      lookupA "T" pst'.tbls = some pts' ∧
      pts'.waiting = some false ∧ pts'.left = false ∧
      (fmt2 (if (130 : ℚ) > c2wPts.latest then 130 - c2wPts.latest else c2wPts.latest - 130) ≠ fmt2 0 →
        pts'.latest = 130 ∧
        ((130 : ℚ) > c2wPts.latest →
          pts'.amtIn = c2wPts.amtIn + (130 - c2wPts.latest) ∧
          pst'.tIn = c2wPst.tIn + (130 - c2wPts.latest) ∧
          pts'.amtOut = c2wPts.amtOut ∧ pst'.tOut = c2wPst.tOut ∧
          st'.events = c2wSt.events ++
            [⟨20, "T", "101", "Alice", "adjusting for consistency - adding on ",
              some (130 - c2wPts.latest), none⟩]) ∧
        (¬ (130 : ℚ) > c2wPts.latest →
          pts'.amtOut = c2wPts.amtOut + (c2wPts.latest - 130) ∧
          pst'.tOut = c2wPst.tOut + (c2wPts.latest - 130) ∧
          pts'.amtIn = c2wPts.amtIn ∧ pst'.tIn = c2wPst.tIn ∧
          st'.events = c2wSt.events ++
            [⟨20, "T", "101", "Alice", "adjusting for consistency - deducting ",
              some (c2wPts.latest - 130), none⟩])) ∧
      (fmt2 (if (130 : ℚ) > c2wPts.latest then 130 - c2wPts.latest else c2wPts.latest - 130) = fmt2 0 →
        pts'.latest = c2wPts.latest ∧ pts'.amtIn = c2wPts.amtIn ∧ pts'.amtOut = c2wPts.amtOut ∧
        pst'.tIn = c2wPst.tIn ∧ pst'.tOut = c2wPst.tOut ∧ st'.events = c2wSt.events)) :=
  ⟨rfl, rfl, rfl, rfl, by with_unfolding_all decide,
    C2_inconsistency 20 "T" "101" "Alice" 130 false c2wSt c2wPst c2wPts false
      rfl rfl rfl rfl rfl (by with_unfolding_all decide)⟩

/-- C3 (corrected, amended part). A hand with no `Table:` line is still
placed in the timestamp ordering, but when the replay reaches it, the table
lookup fails immediately — before any of the hand's seat, add-on, or win
events are processed — and the error aborts the rest of the run. -/
theorem C3_missing_table (st₀ : St) (pre post : List Hand) (h : Hand)
    (hnotable : h.table = none) :
    replayHands st₀ (pre ++ h :: post) =
      (replayHands st₀ pre >>= fun _ => Except.error (Err.keyError "table")) ∧
    ∀ hs : List Hand, h ∈ hs → h ∈ sortHands hs := by
  constructor
  · rw [replayHands_append]
    cases hpre : replayHands st₀ pre with
    | error e => simp [exceptBind_error]
    | ok st₁ =>
      simp only [exceptBind_ok]
      simp [replayHands, List.foldlM_cons, replayHand, hnotable, exceptBind_error]
  · intro hs hmem
    exact ((List.perm_insertionSort _ hs).mem_iff).mpr hmem

/-- Hand with a seat line but no `Table:` line, for the C3 counterexample. -/
def c3Hand : Hand :=
  { num := "100", localSeq := "1", time := 10, table := none,
    text := ["Seat 1: Alice (100)"] }

/-- Counterexample to C3 as stated: the claim says a hand without a `Table:`
line "is replayed for its seat, add-on, and win events", but replaying a
session consisting of such a hand (which contains a seat line for Alice)
produces no state and no events at all — the whole run aborts with the
lookup failure the moment the hand's table is read, before any event of the
hand is replayed. -/
theorem C3_counterexample :
    c3Hand.table = none ∧
    seatPlayersOf c3Hand.text = ["Alice"] ∧
    runSession false [c3Hand] = Except.error (Err.keyError "table") := by
  refine ⟨rfl, ?_, ?_⟩ <;> rfl

/-- Witness for the C3 theorem at a concrete input: the no-table hand as the
only hand of the session. -/
theorem C3_missing_table_witness :
    c3Hand.table = none ∧
    (replayHands (initSt []) ([] ++ c3Hand :: []) =
      (replayHands (initSt []) [] >>= fun _ => Except.error (Err.keyError "table")) ∧
    ∀ hs : List Hand, c3Hand ∈ hs → c3Hand ∈ sortHands hs) :=
  ⟨rfl, C3_missing_table (initSt []) [] [] c3Hand rfl⟩

/-- C7 (corrected). Waiting/left tolerance: a stack change for a waiting or
left player never takes the unexpected-inconsistency path (no warning is
printed); exactly when the delta formats to a nonzero two-decimal amount it
is booked as a legitimate adjustment (inbound if the declared amount is
larger, outbound if smaller) and latestStack is set to the declared amount;
a delta that formats to 0.00 leaves the ledger, latestStack, and the event
stream unchanged. -/
theorem C7_waiting_left (time : ℕ) (tbl hand p : String) (stack : ℚ)
    (sitFlag : Bool) (st : St) (pst : PState) (pts : PTState) (w : Bool)
    (hp : lookupA p st.players = some pst)
    (ht : lookupA tbl pst.tbls = some pts)
    (hw : pts.waiting = some w)
    (hwl : w = true ∨ pts.left = true)
    (hne : pts.latest ≠ stack) :
    ∃ st' pst' pts',
      seatStep time tbl hand p stack sitFlag st = Except.ok st' ∧
      st'.warnings = st.warnings ∧
      lookupA p st'.players = some pst' ∧
      lookupA tbl pst'.tbls = some pts' ∧
      pts'.waiting = some sitFlag ∧ pts'.left = false ∧
      (fmt2 (if stack > pts.latest then stack - pts.latest else pts.latest - stack) ≠ fmt2 0 →
        pts'.latest = stack ∧
        (stack > pts.latest →
          pts'.amtIn = pts.amtIn + (stack - pts.latest) ∧
          pst'.tIn = pst.tIn + (stack - pts.latest) ∧
          pts'.amtOut = pts.amtOut ∧ pst'.tOut = pst.tOut ∧
          st'.events = st.events ++
            [⟨time, tbl, hand, p, "add on while waiting", some (stack - pts.latest), none⟩]) ∧
        (¬ stack > pts.latest →
          pts'.amtOut = pts.amtOut + (pts.latest - stack) ∧
          pst'.tOut = pst.tOut + (pts.latest - stack) ∧
          pts'.amtIn = pts.amtIn ∧ pst'.tIn = pst.tIn ∧
          st'.events = st.events ++
            [⟨time, tbl, hand, p, "reduction while waiting", none, some (pts.latest - stack)⟩])) ∧
      (fmt2 (if stack > pts.latest then stack - pts.latest else pts.latest - stack) = fmt2 0 →
        pts'.latest = pts.latest ∧ pts'.amtIn = pts.amtIn ∧ pts'.amtOut = pts.amtOut ∧
        pst'.tIn = pst.tIn ∧ pst'.tOut = pst.tOut ∧ st'.events = st.events) := by
  have hcond : (w || pts.left) = true := by
    rcases hwl with h | h <;> simp [h]
  by_cases hgt : stack > pts.latest
  · by_cases hz : fmt2 (stack - pts.latest) = fmt2 0 <;>
      simp [seatStep, seatCore, isNewPlayer, hp, ht, hne, hw, hcond, hgt, hz,
        setFlags, getPT, setPT, addEvent, lookupA_upsertA_self, exceptBind_ok]
  · by_cases hz : fmt2 (pts.latest - stack) = fmt2 0 <;>
      simp [seatStep, seatCore, isNewPlayer, hp, ht, hne, hw, hcond, hgt, hz,
        setFlags, getPT, setPT, addEvent, lookupA_upsertA_self, exceptBind_ok]

/-- Hand 1 of the C7 counterexample session: Alice is seated out. -/
def c7Hand1 : Hand :=
  { num := "100", localSeq := "1", time := 10, table := some "T",
    text := ["Table: T", "Seat 1: Alice (100) sitting out"] }

/-- Hand 2 of the C7 counterexample session: the waiting Alice declares
100.004, different from the expected 100. -/
def c7Hand2 : Hand :=
  { num := "101", localSeq := "2", time := 20, table := some "T",
    text := ["Table: T", "Seat 1: Alice (100.004)"] }

/-- Counterexample to C7 as stated: after hand 1 Alice is waiting
(waiting = true), and in hand 2 her declared 100.004 differs from the
expected latestStack 100; the claim asserts the delta is booked and
latestStack is set to the declared amount — yet after the replay latestStack
is still 100, totalIn is still 100, and no adjustment event exists, because
the 0.004 delta formats to "0.00" (the no-warning part does hold:
warnings = 0). -/
theorem C7_counterexample :
    (100004 / 1000 : ℚ) ≠ 100 ∧
    (searchSeat "Seat 1: Alice (100.004)".data).map (fun r => parseAmount r.2) =
      some (some (100004 / 1000)) ∧
    (runSession false [c7Hand1]).map
        (fun st => (getPT "Alice" "T" st).map (fun x => x.2.waiting)) =
      Except.ok (some (some true)) ∧
    (runSession false [c7Hand1, c7Hand2]).map (fun st => getPT "Alice" "T" st) =
      Except.ok (some
        (⟨100, 0, [("T", ⟨100, 100, 0, 100, some false, false⟩)]⟩,
         ⟨100, 100, 0, 100, some false, false⟩)) ∧
    (runSession false [c7Hand1, c7Hand2]).map St.events =
      Except.ok [⟨10, "T", "100", "Alice", "initial buy in", some 100, none⟩] ∧
    (runSession false [c7Hand1, c7Hand2]).map St.warnings = Except.ok 0 := by
  refine ⟨by with_unfolding_all decide, ?_, ?_, ?_, ?_, ?_⟩ <;> with_unfolding_all rfl

/-- State for the C7 witness: Alice waiting at table T with 100 expected. -/
def c7wSt : St :=
  { players := [("Alice",
      { tIn := 100, tOut := 0,
        tbls := [("T",
          { first := 100, amtIn := 100, amtOut := 0, latest := 100,
            waiting := some true, left := false })] })],
    tbls := [], events := [], warnings := 0, ghostWins := 0, ghostContribs := 0 }

/-- Player entry of `c7wSt`. -/
def c7wPst : PState :=
  { tIn := 100, tOut := 0,
    tbls := [("T",
      { first := 100, amtIn := 100, amtOut := 0, latest := 100,
        waiting := some true, left := false })] }

/-- Per-table entry of `c7wSt`. -/
def c7wPts : PTState :=
  { first := 100, amtIn := 100, amtOut := 0, latest := 100,
    waiting := some true, left := false }

/-- Witness for the C7 theorem at a concrete input: waiting Alice declares
130 against an expected 100. -/
theorem C7_waiting_left_witness :
    lookupA "Alice" c7wSt.players = some c7wPst ∧
    lookupA "T" c7wPst.tbls = some c7wPts ∧
    c7wPts.waiting = some true ∧ (c7wPts.latest ≠ (130 : ℚ)) ∧
    (∃ st' pst' pts',
      seatStep 20 "T" "101" "Alice" 130 false c7wSt = Except.ok st' ∧
      st'.warnings = c7wSt.warnings ∧
      lookupA "Alice" st'.players = some pst' ∧
      lookupA "T" pst'.tbls = some pts' ∧
      pts'.waiting = some false ∧ pts'.left = false ∧
      (fmt2 (if (130 : ℚ) > c7wPts.latest then 130 - c7wPts.latest else c7wPts.latest - 130) ≠ fmt2 0 →
        pts'.latest = 130 ∧
        ((130 : ℚ) > c7wPts.latest →
          pts'.amtIn = c7wPts.amtIn + (130 - c7wPts.latest) ∧
          pst'.tIn = c7wPst.tIn + (130 - c7wPts.latest) ∧
          pts'.amtOut = c7wPts.amtOut ∧ pst'.tOut = c7wPst.tOut ∧
          st'.events = c7wSt.events ++
            [⟨20, "T", "101", "Alice", "add on while waiting",
              some (130 - c7wPts.latest), none⟩]) ∧
        (¬ (130 : ℚ) > c7wPts.latest →
          pts'.amtOut = c7wPts.amtOut + (c7wPts.latest - 130) ∧
          pst'.tOut = c7wPst.tOut + (c7wPts.latest - 130) ∧
          pts'.amtIn = c7wPts.amtIn ∧ pst'.tIn = c7wPst.tIn ∧
          st'.events = c7wSt.events ++
            [⟨20, "T", "101", "Alice", "reduction while waiting",
              none, some (c7wPts.latest - 130)⟩])) ∧
      (fmt2 (if (130 : ℚ) > c7wPts.latest then 130 - c7wPts.latest else c7wPts.latest - 130) = fmt2 0 →
        pts'.latest = c7wPts.latest ∧ pts'.amtIn = c7wPts.amtIn ∧ pts'.amtOut = c7wPts.amtOut ∧
        pst'.tIn = c7wPst.tIn ∧ pst'.tOut = c7wPst.tOut ∧ st'.events = c7wSt.events)) :=
  ⟨rfl, rfl, rfl, by with_unfolding_all decide,
    C7_waiting_left 20 "T" "101" "Alice" 130 false c7wSt c7wPst c7wPts true
      rfl rfl rfl (Or.inl rfl) (by with_unfolding_all decide)⟩

/-- C8 (corrected, amended part). After a seat/stack snapshot is resolved,
the player's waiting flag equals exactly the presence, matched
case-sensitively, of the substring "sitting" or "waiting" in the same log
line (the flag the replay loop passes to the handler is that substring
check). -/
theorem C8_waiting_rederive (time : ℕ) (tbl hand p : String) (stack : ℚ)
    (line : List Char) (st st' : St)
    (h : seatStep time tbl hand p stack
      (containsSub "sitting".data line || containsSub "waiting".data line) st =
      Except.ok st') :
    ∃ pst' pts', lookupA p st'.players = some pst' ∧
      lookupA tbl pst'.tbls = some pts' ∧
      pts'.waiting =
        some (containsSub "sitting".data line || containsSub "waiting".data line) ∧
      pts'.left = false := by
  generalize hsit : (containsSub "sitting".data line || containsSub "waiting".data line) = sitFlag at h ⊢
  unfold seatStep at h
  cases hc : seatCore time tbl hand p stack st with
  | error e =>
    rw [hc] at h
    simp [exceptBind_error] at h
  | ok s₂ =>
    rw [hc, exceptBind_ok] at h
    unfold setFlags at h
    cases hg : getPT p tbl s₂ with
    | none =>
      rw [hg] at h
      simp at h
    | some pr =>
      obtain ⟨a, b⟩ := pr
      rw [hg] at h
      simp only [Except.ok.injEq] at h
      subst h
      simp [setPT, lookupA_upsertA_self]

/-- Hand for the C8 counterexample: the seat line carries the capitalized
marker "Sitting Out", as the real log format produces it. -/
def c8Hand : Hand :=
  { num := "100", localSeq := "1", time := 10, table := some "T",
    text := ["Table: T", "Seat 1: Alice (100) Sitting Out"] }

/-- Counterexample to C8 as stated: the line "Seat 1: Alice (100) Sitting
Out" contains the substring "sitting" when matched case-insensitively, so the
claim demands waiting = true, but the script's search is case-sensitive
("sitting" and "waiting" do not occur), and the replay leaves Alice with
waiting = false. -/
theorem C8_counterexample :
    containsCI "sitting".data "Seat 1: Alice (100) Sitting Out".data = true ∧
    containsSub "sitting".data "Seat 1: Alice (100) Sitting Out".data = false ∧
    containsSub "waiting".data "Seat 1: Alice (100) Sitting Out".data = false ∧
    (runSession false [c8Hand]).map
        (fun st => (getPT "Alice" "T" st).map (fun x => x.2.waiting)) =
      Except.ok (some (some false)) := by
  refine ⟨by decide, by decide, by decide, by with_unfolding_all rfl⟩

/-- Line of the C8 witness. -/
def c8Line : List Char := "Seat 1: Alice (100) Sitting Out".data

/-- Result state of the C8 witness run. -/
def c8wRes : St :=
  { players := [("Alice",
      { tIn := 100, tOut := 0,
        tbls := [("T",
          { first := 100, amtIn := 100, amtOut := 0, latest := 100,
            waiting := some false, left := false })] })],
    tbls := [], events := [⟨10, "T", "100", "Alice", "initial buy in", some 100, none⟩],
    warnings := 0, ghostWins := 0, ghostContribs := 0 }

/-- Witness for the C8 theorem at a concrete input: Alice's snapshot handled
with the flag computed from the "Sitting Out" line. -/
theorem C8_waiting_rederive_witness :
    seatStep 10 "T" "100" "Alice" 100
        (containsSub "sitting".data c8Line || containsSub "waiting".data c8Line)
        (initSt []) = Except.ok c8wRes ∧
    ∃ pst' pts', lookupA "Alice" c8wRes.players = some pst' ∧
      lookupA "T" pst'.tbls = some pts' ∧
      pts'.waiting =
        some (containsSub "sitting".data c8Line || containsSub "waiting".data c8Line) ∧
      pts'.left = false :=
  have hrun : seatStep 10 "T" "100" "Alice" 100
      (containsSub "sitting".data c8Line || containsSub "waiting".data c8Line)
      (initSt []) = Except.ok c8wRes := by with_unfolding_all rfl
  ⟨hrun, C8_waiting_rederive 10 "T" "100" "Alice" 100 c8Line (initSt []) c8wRes hrun⟩


theorem ne_append_mark (s : String) : s ≠ s ++ "_" := by
  intro h
  have hlen := congrArg String.length h
  simp [String.length_append] at hlen
  exact absurd hlen (by decide)

theorem foldlM_preserve {α : Type} (P : St → St → Prop)
    (hrefl : ∀ s, P s s) (htrans : ∀ a b c, P a b → P b c → P a c)
    (f : St → α → Except Err St)
    (hf : ∀ s a s₁, f s a = Except.ok s₁ → P s s₁) :
    ∀ (l : List α) (s s₁ : St), List.foldlM f s l = Except.ok s₁ → P s s₁ := by
  intro l
  induction l with
  | nil =>
    intro s s₁ h
    simp only [List.foldlM_nil] at h
    cases h
    exact hrefl s
  | cons a tl ih =>
    intro s s₁ h
    rw [List.foldlM_cons] at h
    cases hf₁ : f s a with
    | error e =>
      rw [hf₁] at h
      simp [exceptBind_error] at h
    | ok s₂ =>
      rw [hf₁, exceptBind_ok] at h
      exact htrans s s₂ s₁ (hf s a s₂ hf₁) (ih s₂ s₁ h)

theorem foldl_preserve {α : Type} (P : St → St → Prop)
    (hrefl : ∀ s, P s s) (htrans : ∀ a b c, P a b → P b c → P a c)
    (f : St → α → St) (hf : ∀ s a, P s (f s a)) :
    ∀ (l : List α) (s : St), P s (List.foldl f s l) := by
  intro l
  induction l with
  | nil =>
    intro s
    simpa using hrefl s
  | cons a tl ih =>
    intro s
    rw [List.foldl_cons]
    exact htrans s (f s a) _ (hf s a) (ih (f s a))

/-- Foreign-table preservation of the seat core: the tables dictionary is
untouched and the filtered event stream of any other table is unchanged. -/
theorem seatCore_foreign (t : String) (time : ℕ) (tbl hand p : String) (stack : ℚ)
    (st s : St) (htne : tbl ≠ t)
    (h : seatCore time tbl hand p stack st = Except.ok s) :
    s.tbls = st.tbls ∧
    s.events.filter (fun e => e.table == t) = st.events.filter (fun e => e.table == t) := by
  unfold seatCore at h
  rcases hin : isNewPlayer p tbl st.players with ⟨isNew, ps1⟩
  rw [hin] at h
  simp only [] at h
  cases hg : getPT p tbl { st with players := ps1 } with
  | none =>
    rw [hg] at h
    simp at h
  | some pr =>
    obtain ⟨pst, pts⟩ := pr
    rw [hg] at h
    repeat' split at h
    all_goals simp only [Except.ok.injEq, reduceCtorEq] at h
    all_goals try subst h
    all_goals simp_all [setPT, addEvent, List.filter_append, List.filter_cons, beq_iff_eq, htne]

theorem setFlags_foreign (t : String) (tbl p : String) (sitFlag : Bool)
    (st s : St) (h : setFlags p tbl sitFlag st = Except.ok s) :
    s.tbls = st.tbls ∧
    s.events.filter (fun e => e.table == t) = st.events.filter (fun e => e.table == t) := by
  unfold setFlags at h
  repeat' split at h
  all_goals simp only [Except.ok.injEq, reduceCtorEq] at h
  all_goals try subst h
  all_goals simp_all [setPT]

theorem seatStep_foreign (t : String) (time : ℕ) (tbl hand p : String) (stack : ℚ)
    (sitFlag : Bool) (st s : St) (htne : tbl ≠ t)
    (h : seatStep time tbl hand p stack sitFlag st = Except.ok s) :
    s.tbls = st.tbls ∧
    s.events.filter (fun e => e.table == t) = st.events.filter (fun e => e.table == t) := by
  unfold seatStep at h
  cases hc : seatCore time tbl hand p stack st with
  | error e =>
    rw [hc] at h
    simp [exceptBind_error] at h
  | ok s₂ =>
    rw [hc, exceptBind_ok] at h
    obtain ⟨h₁, h₂⟩ := seatCore_foreign t time tbl hand p stack st s₂ htne hc
    obtain ⟨h₃, h₄⟩ := setFlags_foreign t tbl p sitFlag s₂ s h
    exact ⟨h₃.trans h₁, h₄.trans h₂⟩

theorem addOnStep_foreign (t : String) (time : ℕ) (tbl hand p : String) (amt : ℚ)
    (st s : St) (htne : tbl ≠ t)
    (h : addOnStep time tbl hand p amt st = Except.ok s) :
    s.tbls = st.tbls ∧
    s.events.filter (fun e => e.table == t) = st.events.filter (fun e => e.table == t) := by
  unfold addOnStep at h
  rcases hin : isNewPlayer p tbl st.players with ⟨isNew, ps1⟩
  rw [hin] at h
  simp only [] at h
  cases hg : getPT p tbl { st with players := ps1 } with
  | none =>
    rw [hg] at h
    simp at h
  | some pr =>
    obtain ⟨pst, pts⟩ := pr
    rw [hg] at h
    simp only [Except.ok.injEq] at h
    subst h
    simp_all [setPT, addEvent, List.filter_append, List.filter_cons, beq_iff_eq, htne]

theorem winStep_foreign (t : String) (tbl p : String) (amt : ℚ)
    (st s : St) (h : winStep tbl p amt st = Except.ok s) :
    s.tbls = st.tbls ∧
    s.events.filter (fun e => e.table == t) = st.events.filter (fun e => e.table == t) := by
  unfold winStep at h
  repeat' split at h
  all_goals simp only [Except.ok.injEq, reduceCtorEq] at h
  all_goals try subst h
  all_goals simp_all [setPT]

theorem contribStep_foreign (t : String) (tbl : String) (entry : List Char)
    (st s : St) (h : contribStep tbl st entry = Except.ok s) :
    s.tbls = st.tbls ∧
    s.events.filter (fun e => e.table == t) = st.events.filter (fun e => e.table == t) := by
  unfold contribStep at h
  repeat' split at h
  all_goals simp only [Except.ok.injEq, reduceCtorEq] at h
  all_goals try subst h
  all_goals simp_all [setPT]

theorem seatPart_foreign (t : String) (time : ℕ) (tbl hand : String)
    (line : String) (st s : St) (htne : tbl ≠ t)
    (h : seatPart time tbl hand line st = Except.ok s) :
    s.tbls = st.tbls ∧
    s.events.filter (fun e => e.table == t) = st.events.filter (fun e => e.table == t) := by
  unfold seatPart at h
  repeat' split at h
  all_goals try simp only [Except.ok.injEq, reduceCtorEq] at h
  all_goals first
    | (exact seatStep_foreign t time tbl hand _ _ _ st s htne h)
    | (subst h; exact ⟨rfl, rfl⟩)

theorem addOnPart_foreign (t : String) (time : ℕ) (tbl hand : String)
    (line : String) (st s : St) (htne : tbl ≠ t)
    (h : addOnPart time tbl hand line st = Except.ok s) :
    s.tbls = st.tbls ∧
    s.events.filter (fun e => e.table == t) = st.events.filter (fun e => e.table == t) := by
  unfold addOnPart at h
  repeat' split at h
  all_goals try simp only [Except.ok.injEq, reduceCtorEq] at h
  all_goals first
    | (exact addOnStep_foreign t time tbl hand _ _ st s htne h)
    | (subst h; exact ⟨rfl, rfl⟩)

theorem winPart_foreign (t : String) (tbl : String)
    (line : String) (st s : St)
    (h : winPart tbl line st = Except.ok s) :
    s.tbls = st.tbls ∧
    s.events.filter (fun e => e.table == t) = st.events.filter (fun e => e.table == t) := by
  unfold winPart at h
  repeat' split at h
  all_goals try simp only [Except.ok.injEq, reduceCtorEq] at h
  all_goals first
    | (exact winStep_foreign t tbl _ _ st s h)
    | (subst h; exact ⟨rfl, rfl⟩)

theorem potPart_foreign (t : String) (tbl : String)
    (line : String) (st s : St)
    (h : potPart tbl line st = Except.ok s) :
    s.tbls = st.tbls ∧
    s.events.filter (fun e => e.table == t) = st.events.filter (fun e => e.table == t) := by
  unfold potPart at h
  repeat' split at h
  all_goals try simp only [Except.ok.injEq, reduceCtorEq] at h
  all_goals first
    | (exact foldlM_preserve _ (fun s₂ => ⟨rfl, rfl⟩)
        (fun a b c hab hbc => ⟨hbc.1.trans hab.1, hbc.2.trans hab.2⟩)
        (contribStep tbl)
        (fun s₂ a s₃ hok => contribStep_foreign t tbl a s₂ s₃ hok) _ st s h)
    | (subst h; exact ⟨rfl, rfl⟩)

theorem processLine_foreign (t : String) (time : ℕ) (tbl hand : String)
    (line : String) (st s : St) (htne : tbl ≠ t)
    (h : processLine time tbl hand st line = Except.ok s) :
    s.tbls = st.tbls ∧
    s.events.filter (fun e => e.table == t) = st.events.filter (fun e => e.table == t) := by
  unfold processLine at h
  cases hA : seatPart time tbl hand line st with
  | error e =>
    rw [hA] at h
    simp [exceptBind_error] at h
  | ok sA =>
    rw [hA, exceptBind_ok] at h
    cases hB : addOnPart time tbl hand line sA with
    | error e =>
      rw [hB] at h
      simp [exceptBind_error] at h
    | ok sB =>
      rw [hB, exceptBind_ok] at h
      cases hC : winPart tbl line sB with
      | error e =>
        rw [hC] at h
        simp [exceptBind_error] at h
      | ok sC =>
        rw [hC, exceptBind_ok] at h
        obtain ⟨a1, a2⟩ := seatPart_foreign t time tbl hand line st sA htne hA
        obtain ⟨b1, b2⟩ := addOnPart_foreign t time tbl hand line sA sB htne hB
        obtain ⟨c1, c2⟩ := winPart_foreign t tbl line sB sC hC
        obtain ⟨d1, d2⟩ := potPart_foreign t tbl line sC s h
        exact ⟨((d1.trans c1).trans b1).trans a1, ((d2.trans c2).trans b2).trans a2⟩

theorem closeOutSweep_foreign (t : String) (time : ℕ) (tbl hand p : String)
    (st : St) (htne : tbl ≠ t) :
    (closeOutSweep time tbl hand p st).tbls = st.tbls ∧
    (closeOutSweep time tbl hand p st).events.filter (fun e => e.table == t) =
      st.events.filter (fun e => e.table == t) := by
  unfold closeOutSweep
  repeat' split
  all_goals simp [setPT, addEvent, List.filter_append, List.filter_cons, beq_iff_eq, htne]

theorem sweepStep_foreign (t : String) (time : ℕ) (tbl hand : String)
    (text : List String) (st : St) (htne : tbl ≠ t) :
    (sweepStep time tbl hand text st).tbls = st.tbls ∧
    (sweepStep time tbl hand text st).events.filter (fun e => e.table == t) =
      st.events.filter (fun e => e.table == t) := by
  unfold sweepStep
  exact foldl_preserve
    (fun s s₂ => s₂.tbls = s.tbls ∧
      s₂.events.filter (fun e => e.table == t) = s.events.filter (fun e => e.table == t))
    (fun s => ⟨rfl, rfl⟩)
    (fun a b c hab hbc => ⟨hbc.1.trans hab.1, hbc.2.trans hab.2⟩)
    _
    (fun s p => by
      split
      · exact ⟨rfl, rfl⟩
      · exact closeOutSweep_foreign t time tbl hand p s htne)
    _ st

theorem lineFold_tbls (time : ℕ) (tbl hand : String) (text : List String)
    (st s : St) (h : text.foldlM (processLine time tbl hand) st = Except.ok s) :
    s.tbls = st.tbls :=
  foldlM_preserve (fun a b => b.tbls = a.tbls) (fun _ => rfl)
    (fun _ _ _ hab hbc => hbc.trans hab)
    (processLine time tbl hand)
    (fun s₂ a s₃ hok =>
      (processLine_foreign (tbl ++ "_") time tbl hand a s₂ s₃ (ne_append_mark tbl) hok).1)
    text st s h

theorem replayBody_pres (t tbl : String) (h : Hand) (st s : St) (htne : tbl ≠ t)
    (hok : replayBody tbl h st = Except.ok s) :
    s.tbls = st.tbls ∧
    s.events.filter (fun e => e.table == t) = st.events.filter (fun e => e.table == t) := by
  unfold replayBody at hok
  cases hfold : h.text.foldlM (processLine h.time tbl h.num) st with
  | error e =>
    rw [hfold] at hok
    simp at hok
  | ok sMid =>
    rw [hfold] at hok
    simp only [Except.ok.injEq] at hok
    subst hok
    have hfor := foldlM_preserve
      (fun a b => b.tbls = a.tbls ∧
        b.events.filter (fun e => e.table == t) = a.events.filter (fun e => e.table == t))
      (fun _ => ⟨rfl, rfl⟩)
      (fun a b c hab hbc => ⟨hbc.1.trans hab.1, hbc.2.trans hab.2⟩)
      (processLine h.time tbl h.num)
      (fun s₂ a s₃ hok₂ => processLine_foreign t h.time tbl h.num a s₂ s₃ htne hok₂)
      _ _ _ hfold
    obtain ⟨hsw1, hsw2⟩ := sweepStep_foreign t h.time tbl h.num h.text sMid htne
    exact ⟨hsw1.trans hfor.1, hsw2.trans hfor.2⟩

theorem replayBody_tbls (tbl : String) (h : Hand) (st s : St)
    (hok : replayBody tbl h st = Except.ok s) : s.tbls = st.tbls :=
  (replayBody_pres (tbl ++ "_") tbl h st s (ne_append_mark tbl) hok).1

/-- Replay of a hand of another table never touches this table's entry and
emits no event of this table. -/
theorem replayHand_foreign (t : String) (h : Hand) (tbl : String) (st s : St)
    (htbl : h.table = some tbl) (htne : tbl ≠ t)
    (hok : replayHand st h = Except.ok s) :
    lookupA t s.tbls = lookupA t st.tbls ∧
    s.events.filter (fun e => e.table == t) = st.events.filter (fun e => e.table == t) := by
  unfold replayHand at hok
  split at hok
  · simp at hok
  · rename_i tbl₂ htbl₂
    obtain rfl : tbl = tbl₂ := Option.some_inj.mp (htbl.symm.trans htbl₂)
    split at hok
    · simp at hok
    · rename_i ts hts
      split at hok
      · simp only [Except.ok.injEq] at hok
        subst hok
        exact ⟨by simp [lookupA_upsertA_ne _ _ (Ne.symm htne)], rfl⟩
      · obtain ⟨hb1, hb2⟩ := replayBody_pres t tbl h _ s htne hok
        constructor
        · rw [hb1]
          simp [lookupA_upsertA_ne _ _ (Ne.symm htne)]
        · exact hb2



theorem C6_suppress (t : String) :
    ∀ (hs : List Hand) (st₀ st₁ : St) (ts₀ : TState),
      replayHands st₀ hs = Except.ok st₁ →
      lookupA t st₀.tbls = some ts₀ →
      ts₀.startHands = false →
      (∀ h ∈ hs, h.table = some t → h.localSeq ≠ "1") →
      lookupA t st₁.tbls =
        some { ts₀ with skipped :=
          ts₀.skipped + (hs.filter (fun h => h.table == some t)).length } ∧
      st₁.events.filter (fun e => e.table == t) = st₀.events.filter (fun e => e.table == t) := by
  intro hs
  induction hs with
  | nil =>
    intro st₀ st₁ ts₀ hrep hlook hstart hall
    simp only [replayHands, List.foldlM_nil] at hrep
    cases hrep
    constructor
    · simpa using hlook
    · rfl
  | cons h₂ rest ih =>
    intro st₀ st₁ ts₀ hrep hlook hstart hall
    simp only [replayHands, List.foldlM_cons] at hrep
    cases hh : replayHand st₀ h₂ with
    | error e =>
      rw [hh] at hrep
      simp [exceptBind_error] at hrep
    | ok stM =>
      rw [hh, exceptBind_ok] at hrep
      cases htb : h₂.table with
      | none =>
        unfold replayHand at hh
        rw [htb] at hh
        simp at hh
      | some t₂ =>
        by_cases htq : t₂ = t
        · subst htq
          have hloc : h₂.localSeq ≠ "1" := hall h₂ (by simp) htb
          simp only [replayHand, htb, hlook] at hh
          rw [if_pos ⟨by simp [hstart], hloc⟩] at hh
          simp only [Except.ok.injEq] at hh
          subst hh
          have hstep := ih _ st₁ { ts₀ with skipped := ts₀.skipped + 1 } hrep
            (by simp [lookupA_upsertA_self]) (by simpa using hstart)
            (fun hx hmem => hall hx (by simp [hmem]))
          refine ⟨?_, ?_⟩
          · rw [hstep.1]
            have heq : ts₀.skipped + 1 + (rest.filter (fun h => h.table == some t₂)).length =
                ts₀.skipped + ((h₂ :: rest).filter (fun h => h.table == some t₂)).length := by
              simp [List.filter_cons, htb]
              omega
            simp only [heq]
          · exact hstep.2
        · have hfor := replayHand_foreign t h₂ t₂ st₀ stM htb htq hh
          have hstep := ih stM st₁ ts₀ hrep (hfor.1.trans hlook) hstart
            (fun hx hmem => hall hx (by simp [hmem]))
          refine ⟨?_, ?_⟩
          · rw [hstep.1]
            have heq : (rest.filter (fun h => h.table == some t)).length =
                ((h₂ :: rest).filter (fun h => h.table == some t)).length := by
              simp [List.filter_cons, htb, htq]
            simp only [heq]
          · exact hstep.2.trans hfor.2



theorem C6_open_gate (t : String) (h₂ : Hand) (st₀ st₁ : St) (ts₀ : TState)
    (htb : h₂.table = some t) (hloc : h₂.localSeq = "1")
    (hlook : lookupA t st₀.tbls = some ts₀)
    (hstart : ts₀.startHands = false)
    (hrep : replayHand st₀ h₂ = Except.ok st₁) :
    ∃ ts₁, lookupA t st₁.tbls = some ts₁ ∧ ts₁.startHands = true ∧
      ts₁.count = ts₀.count + 1 ∧ ts₁.skipped = ts₀.skipped ∧
      ts₁.last = h₂.num ∧ ts₁.latestT = some h₂.time := by
  simp only [replayHand, htb, hlook] at hrep
  rw [if_neg (by simp [hloc])] at hrep
  have htbls := replayBody_tbls t h₂ _ st₁ hrep
  rw [htbls]
  simp [lookupA_upsertA_self, hstart]

theorem C6_permanent (t : String) :
    ∀ (hs : List Hand) (st₀ st₁ : St) (ts₀ : TState),
      replayHands st₀ hs = Except.ok st₁ →
      lookupA t st₀.tbls = some ts₀ →
      ts₀.startHands = true →
      ∃ ts₁, lookupA t st₁.tbls = some ts₁ ∧ ts₁.startHands = true := by
  intro hs
  induction hs with
  | nil =>
    intro st₀ st₁ ts₀ hrep hlook hstart
    simp only [replayHands, List.foldlM_nil] at hrep
    cases hrep
    exact ⟨ts₀, hlook, hstart⟩
  | cons h₂ rest ih =>
    intro st₀ st₁ ts₀ hrep hlook hstart
    simp only [replayHands, List.foldlM_cons] at hrep
    cases hh : replayHand st₀ h₂ with
    | error e =>
      rw [hh] at hrep
      simp [exceptBind_error] at hrep
    | ok stM =>
      rw [hh, exceptBind_ok] at hrep
      cases htb : h₂.table with
      | none =>
        unfold replayHand at hh
        rw [htb] at hh
        simp at hh
      | some t₂ =>
        by_cases htq : t₂ = t
        · subst htq
          simp only [replayHand, htb, hlook] at hh
          rw [if_neg (by simp [hstart])] at hh
          have htbls := replayBody_tbls t₂ h₂ _ stM hh
          have hlk : ∃ tsM, lookupA t₂ stM.tbls = some tsM ∧ tsM.startHands = true := by
            rw [htbls]
            refine ⟨_, lookupA_upsertA_self _ _ _, ?_⟩
            simp [hstart]
            try split <;> simp
          obtain ⟨tsM, hlk1, hlk2⟩ := hlk
          exact ih stM st₁ tsM hrep hlk1 hlk2
        · have hfor := replayHand_foreign t h₂ t₂ st₀ stM htb htq hh
          exact ih stM st₁ ts₀ hrep (hfor.1.trans hlook) hstart


/-- C6 (confirmed). Gate suppression with skip-prior-hands enabled: while a
table's gate is closed, every hand of that table whose local sequence is not
"1" is skipped — its table entry changes only by incrementing skippedCount,
so skippedCount counts exactly the table's hands preceding the first
local-"1" hand, and no TransactionEvent of that table is emitted; the first
hand with local sequence "1" is itself replayed (handCount increments, the
last-hand and latest-time bookkeeping update) and opens the gate; once open,
the gate stays open for the rest of the replay. -/
theorem C6_gate_suppression (t : String) :
    (∀ (hs : List Hand) (st₀ st₁ : St) (ts₀ : TState),
      replayHands st₀ hs = Except.ok st₁ →
      lookupA t st₀.tbls = some ts₀ →
      ts₀.startHands = false →
      (∀ h ∈ hs, h.table = some t → h.localSeq ≠ "1") →
      lookupA t st₁.tbls =
        some { ts₀ with skipped :=
          ts₀.skipped + (hs.filter (fun h => h.table == some t)).length } ∧
      st₁.events.filter (fun e => e.table == t) = st₀.events.filter (fun e => e.table == t)) ∧
    (∀ (h₂ : Hand) (st₀ st₁ : St) (ts₀ : TState),
      h₂.table = some t → h₂.localSeq = "1" →
      lookupA t st₀.tbls = some ts₀ →
      ts₀.startHands = false →
      replayHand st₀ h₂ = Except.ok st₁ →
      ∃ ts₁, lookupA t st₁.tbls = some ts₁ ∧ ts₁.startHands = true ∧
        ts₁.count = ts₀.count + 1 ∧ ts₁.skipped = ts₀.skipped ∧
        ts₁.last = h₂.num ∧ ts₁.latestT = some h₂.time) ∧
    (∀ (hs : List Hand) (st₀ st₁ : St) (ts₀ : TState),
      replayHands st₀ hs = Except.ok st₁ →
      lookupA t st₀.tbls = some ts₀ →
      ts₀.startHands = true →
      ∃ ts₁, lookupA t st₁.tbls = some ts₁ ∧ ts₁.startHands = true) :=
  ⟨C6_suppress t, fun h₂ st₀ st₁ ts₀ => C6_open_gate t h₂ st₀ st₁ ts₀, C6_permanent t⟩

/-- Skipped hand 1 of the C6 witness session (local sequence 7). -/
def c6Hand1 : Hand :=
  { num := "90", localSeq := "7", time := 5, table := some "T",
    text := ["Table: T", "Seat 1: Alice (100)"] }

/-- Skipped hand 2 of the C6 witness session (local sequence 8). -/
def c6Hand2 : Hand :=
  { num := "91", localSeq := "8", time := 6, table := some "T",
    text := ["Table: T", "Seat 1: Alice (100)"] }

/-- Gate-opening hand of the C6 witness session (local sequence 1). -/
def c6Hand3 : Hand :=
  { num := "100", localSeq := "1", time := 10, table := some "T",
    text := ["Table: T", "Seat 1: Alice (100)"] }

/-- Initial state of the C6 witness session (skip-prior-hands enabled). -/
def c6wInit : St := initSt (initTables true [c6Hand1, c6Hand2, c6Hand3])

/-- State after the two suppressed hands of the C6 witness session. -/
def c6wSkipSt : St :=
  { players := [],
    tbls := [("T",
      { count := 0, skipped := 2, startHands := false,
        earliest := none, latestT := none, last := "" })],
    events := [], warnings := 0, ghostWins := 0, ghostContribs := 0 }

/-- Table entry of `c6wSkipSt`. -/
def c6wTs : TState :=
  { count := 0, skipped := 2, startHands := false,
    earliest := none, latestT := none, last := "" }

/-- State after the gate-opening hand of the C6 witness session. -/
def c6wOpenSt : St :=
  { players := [("Alice",
      { tIn := 100, tOut := 0,
        tbls := [("T",
          { first := 100, amtIn := 100, amtOut := 0, latest := 100,
            waiting := some false, left := false })] })],
    tbls := [("T",
      { count := 1, skipped := 2, startHands := true,
        earliest := some 10, latestT := some 10, last := "100" })],
    events := [⟨10, "T", "100", "Alice", "initial buy in", some 100, none⟩],
    warnings := 0, ghostWins := 0, ghostContribs := 0 }

/-- Table entry of `c6wOpenSt`. -/
def c6wTs2 : TState :=
  { count := 1, skipped := 2, startHands := true,
    earliest := some 10, latestT := some 10, last := "100" }

/-- Witness for C6 at a concrete skip-mode session: two suppressed hands,
then the local-"1" hand that opens the gate. -/
theorem C6_gate_suppression_witness :
    (replayHands c6wInit [c6Hand1, c6Hand2] = Except.ok c6wSkipSt ∧
     lookupA "T" c6wInit.tbls = some (freshT false) ∧
     (freshT false).startHands = false ∧
     (∀ h ∈ [c6Hand1, c6Hand2], h.table = some "T" → h.localSeq ≠ "1") ∧
     (lookupA "T" c6wSkipSt.tbls =
        some { freshT false with skipped := (freshT false).skipped +
          (([c6Hand1, c6Hand2].filter (fun h => h.table == some "T")).length) } ∧
      c6wSkipSt.events.filter (fun e => e.table == "T") =
        c6wInit.events.filter (fun e => e.table == "T"))) ∧
    (c6Hand3.table = some "T" ∧ c6Hand3.localSeq = "1" ∧
     lookupA "T" c6wSkipSt.tbls = some c6wTs ∧ c6wTs.startHands = false ∧
     replayHand c6wSkipSt c6Hand3 = Except.ok c6wOpenSt ∧
     (∃ ts₁, lookupA "T" c6wOpenSt.tbls = some ts₁ ∧ ts₁.startHands = true ∧
        ts₁.count = c6wTs.count + 1 ∧ ts₁.skipped = c6wTs.skipped ∧
        ts₁.last = c6Hand3.num ∧ ts₁.latestT = some c6Hand3.time)) ∧
    (replayHands c6wOpenSt [] = Except.ok c6wOpenSt ∧
     lookupA "T" c6wOpenSt.tbls = some c6wTs2 ∧ c6wTs2.startHands = true ∧
     (∃ ts₁, lookupA "T" c6wOpenSt.tbls = some ts₁ ∧ ts₁.startHands = true)) :=
  have hskip : replayHands c6wInit [c6Hand1, c6Hand2] = Except.ok c6wSkipSt := by
    with_unfolding_all rfl
  have hopen : replayHand c6wSkipSt c6Hand3 = Except.ok c6wOpenSt := by
    with_unfolding_all rfl
  ⟨⟨hskip, rfl, rfl, by decide,
    (C6_gate_suppression "T").1 [c6Hand1, c6Hand2] c6wInit c6wSkipSt (freshT false)
      hskip rfl rfl (by decide)⟩,
   ⟨rfl, rfl, rfl, rfl, hopen,
    (C6_gate_suppression "T").2.1 c6Hand3 c6wSkipSt c6wOpenSt c6wTs rfl rfl rfl rfl hopen⟩,
   ⟨rfl, rfl, rfl,
    (C6_gate_suppression "T").2.2 [] c6wOpenSt c6wOpenSt c6wTs2 rfl rfl rfl⟩⟩


theorem lookupA_mem_keys {α : Type} {k : String} {v : α} {l : List (String × α)}
    (h : lookupA k l = some v) : k ∈ l.map Prod.fst := by
  induction l with
  | nil => simp [lookupA] at h
  | cons hd tl ih =>
    obtain ⟨k₁, v₁⟩ := hd
    by_cases h₁ : k₁ = k
    · simp [h₁]
    · simp [lookupA, h₁] at h
      simp [ih h]

theorem foldl_preserve_mem {α : Type} (P : St → St → Prop)
    (hrefl : ∀ s, P s s) (htrans : ∀ a b c, P a b → P b c → P a c)
    (f : St → α → St) :
    ∀ (l : List α), (∀ s a, a ∈ l → P s (f s a)) → ∀ (s : St), P s (List.foldl f s l) := by
  intro l
  induction l with
  | nil =>
    intro _ s
    simpa using hrefl s
  | cons a tl ih =>
    intro hf s
    rw [List.foldl_cons]
    exact htrans s (f s a) _ (hf s a (by simp))
      (ih (fun s₂ b hb => hf s₂ b (by simp [hb])) (f s a))

/-- A sweep step for a player other than p leaves p's ledger entry and
p's filtered events unchanged. -/
theorem closeOutSweep_other (time : ℕ) (tbl hand p q : String) (s : St)
    (hqp : q ≠ p) :
    lookupA p (closeOutSweep time tbl hand q s).players = lookupA p s.players ∧
    (closeOutSweep time tbl hand q s).events.filter (fun e => e.player == p) =
      s.events.filter (fun e => e.player == p) := by
  unfold closeOutSweep
  repeat' split
  all_goals simp [setPT, addEvent, List.filter_append, List.filter_cons, beq_iff_eq,
    lookupA_upsertA_ne _ _ (Ne.symm hqp), hqp]

/-- C5 (corrected, amended part). End-of-hand sweep: every player with state
at this hand's table, not already left, whose name does not occur anywhere in
the hand's text in the pattern `Seat <digits>: <name>`, is force-closed:
amountOut (player total and per-table) grows by exactly the player's current
latestStack, latestStack resets to 0, waiting and left are set true, and
exactly one "stood up with" event for that player is appended. -/
theorem C5_stand_up (time : ℕ) (tbl hand : String) (text : List String) (st : St)
    (p : String) (pst : PState) (pts : PTState)
    (hnodup : (st.players.map Prod.fst).Nodup)
    (hp : lookupA p st.players = some pst)
    (ht : lookupA tbl pst.tbls = some pts)
    (hleft : pts.left = false)
    (hmatch : ∀ l ∈ text, sweepMatchLine p.data l.data = false) :
    ∃ pst', lookupA p (sweepStep time tbl hand text st).players = some pst' ∧
      pst'.tOut = pst.tOut + pts.latest ∧
      lookupA tbl pst'.tbls = some
        { pts with amtOut := pts.amtOut + pts.latest, latest := 0,
                   waiting := some true, left := true } ∧
      (sweepStep time tbl hand text st).events.filter (fun e => e.player == p) =
        st.events.filter (fun e => e.player == p) ++
        [⟨time, tbl, hand, p, "stood up with", none, some pts.latest⟩] := by
  have hmem : p ∈ st.players.map Prod.fst := lookupA_mem_keys hp
  obtain ⟨n₁, n₂, hsplit⟩ := List.mem_iff_append.mp hmem
  have hnd := hnodup
  rw [hsplit] at hnd
  have hpn₁ : p ∉ n₁ := by
    intro hc
    exact (List.disjoint_of_nodup_append hnd) hc (by simp)
  have hpn₂ : p ∉ n₂ := by
    have := (List.nodup_append.mp hnd).2.1
    simp at this
    exact this.1
  unfold sweepStep
  rw [hsplit, List.foldl_append, List.foldl_cons]
  have hQ := foldl_preserve_mem
    (fun a b => lookupA p b.players = lookupA p a.players ∧
      b.events.filter (fun e => e.player == p) = a.events.filter (fun e => e.player == p))
    (fun _ => ⟨rfl, rfl⟩)
    (fun a b c hab hbc => ⟨hbc.1.trans hab.1, hbc.2.trans hab.2⟩)
    (fun s q => if text.any (fun l => sweepMatchLine q.data l.data) then s
      else closeOutSweep time tbl hand q s)
    n₁
    (fun s q hq => by
      dsimp only
      split
      · exact ⟨rfl, rfl⟩
      · exact closeOutSweep_other time tbl hand p q s (fun hc => hpn₁ (hc ▸ hq)))
    st
  set stA := List.foldl (fun s q => if text.any (fun l => sweepMatchLine q.data l.data) then s
    else closeOutSweep time tbl hand q s) st n₁ with hstA
  have hpA : lookupA p stA.players = some pst := hQ.1.trans hp
  have hcond : (text.any (fun l => sweepMatchLine p.data l.data)) = false := by
    rw [List.any_eq_false]
    intro l hl
    simp [hmatch l hl]
  rw [if_neg (by simp [hcond])]
  have hclose : ∃ pstB, 
      lookupA p (closeOutSweep time tbl hand p stA).players = some pstB ∧
      pstB.tOut = pst.tOut + pts.latest ∧
      lookupA tbl pstB.tbls = some
        { pts with amtOut := pts.amtOut + pts.latest, latest := 0,
                   waiting := some true, left := true } ∧
      (closeOutSweep time tbl hand p stA).events.filter (fun e => e.player == p) =
        stA.events.filter (fun e => e.player == p) ++
        [⟨time, tbl, hand, p, "stood up with", none, some pts.latest⟩] := by
    unfold closeOutSweep
    rw [show getPT p tbl stA = some (pst, pts) by simp [getPT, hpA, ht]]
    dsimp only
    rw [if_neg (by simp [hleft])]
    refine
      ⟨{ pst with
           tOut := pst.tOut + pts.latest,
           tbls := upsertA tbl
             { pts with
                 amtOut := pts.amtOut + pts.latest, latest := 0,
                 waiting := some true, left := true } pst.tbls },
       ?_, rfl, ?_, ?_⟩
    · simp [setPT, addEvent, lookupA_upsertA_self]
    · simp [lookupA_upsertA_self]
    · simp [setPT, addEvent, List.filter_append, List.filter_cons]
  obtain ⟨pstB, hB1, hB2, hB3, hB4⟩ := hclose
  have hR := foldl_preserve_mem
    (fun a b => lookupA p b.players = lookupA p a.players ∧
      b.events.filter (fun e => e.player == p) = a.events.filter (fun e => e.player == p))
    (fun _ => ⟨rfl, rfl⟩)
    (fun a b c hab hbc => ⟨hbc.1.trans hab.1, hbc.2.trans hab.2⟩)
    (fun s q => if text.any (fun l => sweepMatchLine q.data l.data) then s
      else closeOutSweep time tbl hand q s)
    n₂
    (fun s q hq => by
      dsimp only
      split
      · exact ⟨rfl, rfl⟩
      · exact closeOutSweep_other time tbl hand p q s (fun hc => hpn₂ (hc ▸ hq)))
    (closeOutSweep time tbl hand p stA)
  refine ⟨pstB, hR.1.trans hB1, hB2, hB3, ?_⟩
  rw [hR.2, hB4, hQ.2]


/-- Hand 1 of the C5 counterexample session: Bob and Bobby both seated. -/
def c5Hand1 : Hand :=
  { num := "100", localSeq := "1", time := 10, table := some "T",
    text := ["Table: T", "Seat 1: Bob (30)", "Seat 2: Bobby (50)"] }

/-- Hand 2 of the C5 counterexample session: only Bobby is seated. -/
def c5Hand2 : Hand :=
  { num := "101", localSeq := "2", time := 20, table := some "T",
    text := ["Table: T", "Seat 1: Bobby (50)"] }

/-- Counterexample to C5 as stated: in hand 2 Bob is not among the seat
lines (its only seat line names Bobby), Bob has state at table T and is not
left, so the claim requires Bob to be force-closed with a "stood up with"
event — yet after the whole replay Bob is still seated (left = false,
amountOut = 0) and no stood-up event exists, because the sweep checks the
regex `Seat <digits>: Bob` against the raw hand text and `Seat 1: Bobby`
contains `Seat 1: Bob` as a substring. -/
theorem C5_counterexample :
    (¬ "Bob" ∈ seatPlayersOf c5Hand2.text) ∧
    (runSession false [c5Hand1, c5Hand2]).map (fun st => getPT "Bob" "T" st) =
      Except.ok (some
        (⟨30, 0, [("T", ⟨30, 30, 0, 30, some false, false⟩)]⟩,
         ⟨30, 30, 0, 30, some false, false⟩)) ∧
    (runSession false [c5Hand1, c5Hand2]).map
        (fun st => st.events.filter (fun e => e.action == "stood up with")) =
      Except.ok [] := by
  refine ⟨by decide, ?_, ?_⟩ <;> with_unfolding_all rfl

/-- State for the C5 witness: Alice seated at T with 40 behind. -/
def c5wSt : St :=
  { players := [("Alice",
      { tIn := 40, tOut := 0,
        tbls := [("T",
          { first := 40, amtIn := 40, amtOut := 0, latest := 40,
            waiting := some false, left := false })] })],
    tbls := [], events := [], warnings := 0, ghostWins := 0, ghostContribs := 0 }

/-- Player entry of `c5wSt`. -/
def c5wPst : PState :=
  { tIn := 40, tOut := 0,
    tbls := [("T",
      { first := 40, amtIn := 40, amtOut := 0, latest := 40,
        waiting := some false, left := false })] }

/-- Per-table entry of `c5wSt`. -/
def c5wPts : PTState :=
  { first := 40, amtIn := 40, amtOut := 0, latest := 40,
    waiting := some false, left := false }

/-- Witness for the C5 theorem at a concrete input: a hand whose text seats
only Zed, swept against Alice's open state. -/
theorem C5_stand_up_witness :
    (c5wSt.players.map Prod.fst).Nodup ∧
    lookupA "Alice" c5wSt.players = some c5wPst ∧
    lookupA "T" c5wPst.tbls = some c5wPts ∧
    c5wPts.left = false ∧
    (∀ l ∈ ["Seat 1: Zed (10)"], sweepMatchLine "Alice".data l.data = false) ∧
    (∃ pst', lookupA "Alice"
        (sweepStep 20 "T" "101" ["Seat 1: Zed (10)"] c5wSt).players = some pst' ∧
      pst'.tOut = c5wPst.tOut + c5wPts.latest ∧
      lookupA "T" pst'.tbls = some
        { c5wPts with amtOut := c5wPts.amtOut + c5wPts.latest, latest := 0,
                      waiting := some true, left := true } ∧
      (sweepStep 20 "T" "101" ["Seat 1: Zed (10)"] c5wSt).events.filter
          (fun e => e.player == "Alice") =
        c5wSt.events.filter (fun e => e.player == "Alice") ++
        [⟨20, "T", "101", "Alice", "stood up with", none, some c5wPts.latest⟩]) :=
  ⟨by decide, rfl, rfl, rfl, by decide,
    C5_stand_up 20 "T" "101" ["Seat 1: Zed (10)"] c5wSt "Alice" c5wPst c5wPts
      (by decide) rfl rfl rfl (by decide)⟩

end PLM

namespace PLM

theorem lookupA_mem {α : Type} {k : String} {v : α} {l : List (String × α)}
    (h : lookupA k l = some v) : (k, v) ∈ l := by
  induction l with
  | nil => simp [lookupA] at h
  | cons hd tl ih =>
    obtain ⟨k₁, v₁⟩ := hd
    by_cases h₁ : k₁ = k
    · subst h₁
      simp [lookupA] at h
      simp [h]
    · simp [lookupA, h₁] at h
      simp [ih h]

theorem getPT_eq {p tbl : String} {st : St} {pst : PState} {pts : PTState}
    (hg : getPT p tbl st = some (pst, pts)) :
    lookupA p st.players = some pst ∧ lookupA tbl pst.tbls = some pts := by
  unfold getPT at hg
  split at hg
  · exact absurd hg (by simp)
  · rename_i w hq
    split at hg
    · exact absurd hg (by simp)
    · rename_i w₂ hq₂
      simp only [Option.some.injEq, Prod.mk.injEq] at hg
      obtain ⟨rfl, rfl⟩ := hg
      exact ⟨hq, hq₂⟩

/-- Non-negativity of the inbound side of the ledger: every player's session
total IN and every per-table amount IN is non-negative. -/
def InvIn (ps : List (String × PState)) : Prop :=
  ∀ pe ∈ ps, 0 ≤ pe.2.tIn ∧ ∀ te ∈ pe.2.tbls, 0 ≤ te.2.amtIn

theorem invIn_upsert {ps : List (String × PState)} {p : String} {pst' : PState}
    (hInv : InvIn ps) (h1 : 0 ≤ pst'.tIn)
    (h2 : ∀ te ∈ pst'.tbls, 0 ≤ te.2.amtIn) : InvIn (upsertA p pst' ps) := by
  intro pe hpe
  rcases mem_upsertA hpe with he | he
  · subst he
    exact ⟨h1, h2⟩
  · exact hInv pe he

theorem invIn_tblsUpsert {tl : List (String × PTState)} {tbl : String}
    {pts' : PTState} (hall : ∀ te ∈ tl, 0 ≤ te.2.amtIn)
    (hamt : 0 ≤ pts'.amtIn) : ∀ te ∈ upsertA tbl pts' tl, 0 ≤ te.2.amtIn := by
  intro te hte
  rcases mem_upsertA hte with he | he
  · subst he
    exact hamt
  · exact hall te he

theorem invIn_isNewPlayer (check tbl : String) (ps : List (String × PState))
    (hInv : InvIn ps) : InvIn (isNewPlayer check tbl ps).2 := by
  unfold isNewPlayer
  split
  · dsimp only
    refine invIn_upsert hInv (by simp [emptyP]) ?_
    intro te hte
    simp [emptyP] at hte
    simp [hte, emptyPT]
  · rename_i pst hq
    split
    · dsimp only
      refine invIn_upsert hInv (hInv _ (lookupA_mem hq)).1
        (invIn_tblsUpsert (fun te hte => (hInv _ (lookupA_mem hq)).2 te hte) ?_)
      simp [emptyPT]
    · dsimp only
      exact hInv

theorem parseAmount_nonneg {cs : List Char} {q : ℚ} (h : parseAmount cs = some q) :
    0 ≤ q := by
  unfold parseAmount at h
  repeat' split at h
  all_goals simp only [Option.some.injEq, reduceCtorEq] at h
  all_goals subst h
  all_goals positivity

theorem seatCore_invIn (time : ℕ) (tbl hand p : String) (stack : ℚ) (st s : St)
    (hstack : 0 ≤ stack) (hInv : InvIn st.players)
    (h : seatCore time tbl hand p stack st = Except.ok s) : InvIn s.players := by
  unfold seatCore at h
  rcases hin : isNewPlayer p tbl st.players with ⟨isNew, ps1⟩
  rw [hin] at h
  simp only [] at h
  have hInv1 : InvIn ps1 := by
    have hI := invIn_isNewPlayer p tbl st.players hInv
    rw [hin] at hI
    exact hI
  split at h
  · exact absurd h (by simp)
  · rename_i pst pts hg
    obtain ⟨hps, hts⟩ := getPT_eq hg
    have h1 : 0 ≤ pst.tIn := (hInv1 _ (lookupA_mem hps)).1
    have h2 : ∀ te ∈ pst.tbls, 0 ≤ te.2.amtIn := (hInv1 _ (lookupA_mem hps)).2
    have h3 : 0 ≤ pts.amtIn := h2 _ (lookupA_mem hts)
    repeat' split at h
    all_goals simp only [Except.ok.injEq, reduceCtorEq] at h
    all_goals try subst h
    all_goals first
      | exact hInv1
      | (simp only [addEvent, setPT]
         refine invIn_upsert hInv1 ?_ (invIn_tblsUpsert h2 ?_) <;> dsimp only <;> linarith)

theorem setFlags_invIn (p tbl : String) (sitFlag : Bool) (st s : St)
    (hInv : InvIn st.players)
    (h : setFlags p tbl sitFlag st = Except.ok s) : InvIn s.players := by
  unfold setFlags at h
  split at h
  · exact absurd h (by simp)
  · rename_i pst pts hg
    simp only [Except.ok.injEq] at h
    subst h
    obtain ⟨hps, hts⟩ := getPT_eq hg
    have h1 : 0 ≤ pst.tIn := (hInv _ (lookupA_mem hps)).1
    have h2 : ∀ te ∈ pst.tbls, 0 ≤ te.2.amtIn := (hInv _ (lookupA_mem hps)).2
    have h3 : 0 ≤ pts.amtIn := h2 _ (lookupA_mem hts)
    simp only [setPT]
    refine invIn_upsert hInv ?_ (invIn_tblsUpsert h2 ?_) <;> dsimp only <;> linarith

theorem seatStep_invIn (time : ℕ) (tbl hand p : String) (stack : ℚ)
    (sitFlag : Bool) (st s : St) (hstack : 0 ≤ stack) (hInv : InvIn st.players)
    (h : seatStep time tbl hand p stack sitFlag st = Except.ok s) :
    InvIn s.players := by
  unfold seatStep at h
  cases hc : seatCore time tbl hand p stack st with
  | error e => rw [hc] at h; simp [Bind.bind, Except.bind] at h
  | ok st₁ =>
    rw [hc] at h
    simp only [Bind.bind, Except.bind] at h
    exact setFlags_invIn p tbl sitFlag st₁ s
      (seatCore_invIn time tbl hand p stack st st₁ hstack hInv hc) h

theorem addOnStep_invIn (time : ℕ) (tbl hand p : String) (additional : ℚ)
    (st s : St) (hadd : 0 ≤ additional) (hInv : InvIn st.players)
    (h : addOnStep time tbl hand p additional st = Except.ok s) :
    InvIn s.players := by
  unfold addOnStep at h
  rcases hin : isNewPlayer p tbl st.players with ⟨isNew, ps1⟩
  rw [hin] at h
  simp only [] at h
  have hInv1 : InvIn ps1 := by
    have hI := invIn_isNewPlayer p tbl st.players hInv
    rw [hin] at hI
    exact hI
  split at h
  · exact absurd h (by simp)
  · rename_i pst pts hg
    simp only [Except.ok.injEq] at h
    subst h
    obtain ⟨hps, hts⟩ := getPT_eq hg
    have h1 : 0 ≤ pst.tIn := (hInv1 _ (lookupA_mem hps)).1
    have h2 : ∀ te ∈ pst.tbls, 0 ≤ te.2.amtIn := (hInv1 _ (lookupA_mem hps)).2
    have h3 : 0 ≤ pts.amtIn := h2 _ (lookupA_mem hts)
    simp only [addEvent, setPT]
    refine invIn_upsert hInv1 ?_ (invIn_tblsUpsert h2 ?_) <;> dsimp only <;> linarith

theorem winStep_invIn (tbl p : String) (win : ℚ) (st s : St)
    (hInv : InvIn st.players) (h : winStep tbl p win st = Except.ok s) :
    InvIn s.players := by
  unfold winStep at h
  split at h
  · exact absurd h (by simp)
  · rename_i pst hq
    split at h
    · exact absurd h (by simp)
    · rename_i pts hq₂
      simp only [Except.ok.injEq] at h
      subst h
      have h1 : 0 ≤ pst.tIn := (hInv _ (lookupA_mem hq)).1
      have h2 : ∀ te ∈ pst.tbls, 0 ≤ te.2.amtIn := (hInv _ (lookupA_mem hq)).2
      have h3 : 0 ≤ pts.amtIn := h2 _ (lookupA_mem hq₂)
      simp only [setPT]
      refine invIn_upsert hInv ?_ (invIn_tblsUpsert h2 ?_) <;> dsimp only <;> linarith

theorem contribStep_invIn (tbl : String) (st s : St) (entry : List Char)
    (hInv : InvIn st.players) (h : contribStep tbl st entry = Except.ok s) :
    InvIn s.players := by
  unfold contribStep at h
  repeat' split at h
  all_goals simp only [Except.ok.injEq, reduceCtorEq] at h
  all_goals try subst h
  rename_i pcs acs hsp op pst hps ot pts hts oq amt hamt
  have h1 : 0 ≤ pst.tIn := (hInv _ (lookupA_mem hps)).1
  have h2 : ∀ te ∈ pst.tbls, 0 ≤ te.2.amtIn := (hInv _ (lookupA_mem hps)).2
  have h3 : 0 ≤ pts.amtIn := h2 _ (lookupA_mem hts)
  simp only [setPT]
  refine invIn_upsert hInv ?_ (invIn_tblsUpsert h2 ?_) <;> dsimp only <;> linarith

end PLM

namespace PLM

theorem seatPart_invIn (time : ℕ) (tbl hand : String) (line : String) (st s : St)
    (hInv : InvIn st.players)
    (h : seatPart time tbl hand line st = Except.ok s) : InvIn s.players := by
  unfold seatPart at h
  repeat' split at h
  all_goals try simp only [Except.ok.injEq, reduceCtorEq] at h
  all_goals try subst h
  all_goals first
    | exact hInv
    | (rename_i oq stack hq
       exact seatStep_invIn _ _ _ _ _ _ _ _ (parseAmount_nonneg hq) hInv h)

theorem addOnPart_invIn (time : ℕ) (tbl hand : String) (line : String) (st s : St)
    (hInv : InvIn st.players)
    (h : addOnPart time tbl hand line st = Except.ok s) : InvIn s.players := by
  unfold addOnPart at h
  repeat' split at h
  all_goals try simp only [Except.ok.injEq, reduceCtorEq] at h
  all_goals try subst h
  all_goals first
    | exact hInv
    | (rename_i oq amt hq
       exact addOnStep_invIn _ _ _ _ _ _ _ (parseAmount_nonneg hq) hInv h)

theorem winPart_invIn (tbl : String) (line : String) (st s : St)
    (hInv : InvIn st.players)
    (h : winPart tbl line st = Except.ok s) : InvIn s.players := by
  unfold winPart at h
  repeat' split at h
  all_goals try simp only [Except.ok.injEq, reduceCtorEq] at h
  all_goals try subst h
  all_goals first
    | exact hInv
    | exact winStep_invIn _ _ _ _ _ hInv h

theorem potPart_invIn (tbl : String) (line : String) (st s : St)
    (hInv : InvIn st.players)
    (h : potPart tbl line st = Except.ok s) : InvIn s.players := by
  unfold potPart at h
  repeat' split at h
  all_goals try simp only [Except.ok.injEq, reduceCtorEq] at h
  all_goals try subst h
  all_goals first
    | exact hInv
    | exact foldlM_preserve (fun a b => InvIn a.players → InvIn b.players)
        (fun _ hi => hi) (fun _ _ _ hab hbc hi => hbc (hab hi))
        (contribStep tbl)
        (fun a e b hstep hi => contribStep_invIn tbl a b e hi hstep)
        _ st s h hInv

theorem processLine_invIn (time : ℕ) (tbl hand : String) (st : St) (line : String)
    (s : St) (hInv : InvIn st.players)
    (h : processLine time tbl hand st line = Except.ok s) : InvIn s.players := by
  unfold processLine at h
  cases hA : seatPart time tbl hand line st with
  | error e =>
    rw [hA] at h
    simp [exceptBind_error] at h
  | ok sA =>
    rw [hA, exceptBind_ok] at h
    cases hB : addOnPart time tbl hand line sA with
    | error e =>
      rw [hB] at h
      simp [exceptBind_error] at h
    | ok sB =>
      rw [hB, exceptBind_ok] at h
      cases hC : winPart tbl line sB with
      | error e =>
        rw [hC] at h
        simp [exceptBind_error] at h
      | ok sC =>
        rw [hC, exceptBind_ok] at h
        exact potPart_invIn tbl line sC s
          (winPart_invIn tbl line sB sC
            (addOnPart_invIn time tbl hand line sA sB
              (seatPart_invIn time tbl hand line st sA hInv hA) hB) hC) h

theorem closeOutSweep_invIn (time : ℕ) (tbl hand p : String) (st : St)
    (hInv : InvIn st.players) : InvIn (closeOutSweep time tbl hand p st).players := by
  unfold closeOutSweep
  split
  · exact hInv
  · rename_i pst pts hg
    split
    · exact hInv
    · obtain ⟨hps, hts⟩ := getPT_eq hg
      have h1 : 0 ≤ pst.tIn := (hInv _ (lookupA_mem hps)).1
      have h2 : ∀ te ∈ pst.tbls, 0 ≤ te.2.amtIn := (hInv _ (lookupA_mem hps)).2
      have h3 : 0 ≤ pts.amtIn := h2 _ (lookupA_mem hts)
      simp only [addEvent, setPT]
      refine invIn_upsert hInv ?_ (invIn_tblsUpsert h2 ?_) <;> dsimp only <;> linarith

theorem sweepStep_invIn (time : ℕ) (tbl hand : String) (text : List String)
    (st : St) (hInv : InvIn st.players) :
    InvIn (sweepStep time tbl hand text st).players := by
  unfold sweepStep
  refine foldl_preserve (fun a b => InvIn a.players → InvIn b.players)
      (fun _ hi => hi) (fun _ _ _ hab hbc hi => hbc (hab hi)) _ ?_ _ st hInv
  intro s p hi
  dsimp only
  split
  · exact hi
  · exact closeOutSweep_invIn time tbl hand p s hi

theorem replayBody_invIn (tbl : String) (hh : Hand) (st s : St)
    (hInv : InvIn st.players)
    (h : replayBody tbl hh st = Except.ok s) : InvIn s.players := by
  unfold replayBody at h
  split at h
  · exact absurd h (by simp)
  · rename_i st₁ hfold
    simp only [Except.ok.injEq] at h
    subst h
    refine sweepStep_invIn _ _ _ _ _ ?_
    exact foldlM_preserve (fun a b => InvIn a.players → InvIn b.players)
      (fun _ hi => hi) (fun _ _ _ hab hbc hi => hbc (hab hi))
      (processLine hh.time tbl hh.num)
      (fun a l b hstep hi => processLine_invIn hh.time tbl hh.num a l b hi hstep)
      _ st st₁ hfold hInv

theorem replayHand_invIn (st : St) (hh : Hand) (s : St) (hInv : InvIn st.players)
    (h : replayHand st hh = Except.ok s) : InvIn s.players := by
  unfold replayHand at h
  repeat' split at h
  all_goals try simp only [] at h
  all_goals try simp only [Except.ok.injEq, reduceCtorEq] at h
  all_goals try subst h
  all_goals first
    | exact hInv
    | (refine replayBody_invIn _ _ _ _ ?_ h
       exact hInv)

theorem replayHands_invIn (st : St) (hs : List Hand) (s : St)
    (hInv : InvIn st.players)
    (h : replayHands st hs = Except.ok s) : InvIn s.players := by
  unfold replayHands at h
  exact foldlM_preserve (fun a b => InvIn a.players → InvIn b.players)
    (fun _ hi => hi) (fun _ _ _ hab hbc hi => hbc (hab hi))
    replayHand (fun a hd b hstep hi => replayHand_invIn a hd b hi hstep)
    _ st s h hInv

theorem runSession_invIn (skip : Bool) (hs : List Hand) (s : St)
    (h : runSession skip hs = Except.ok s) : InvIn s.players := by
  unfold runSession at h
  refine replayHands_invIn _ _ _ ?_ h
  intro pe hpe
  simp [initSt] at hpe

theorem closeOutFinal_invIn (time : ℕ) (tbl hand p : String) (st : St)
    (hInv : InvIn st.players) : InvIn (closeOutFinal time tbl hand p st).players := by
  unfold closeOutFinal
  split
  · exact hInv
  · rename_i pst pts hg
    split
    · exact hInv
    · obtain ⟨hps, hts⟩ := getPT_eq hg
      have h1 : 0 ≤ pst.tIn := (hInv _ (lookupA_mem hps)).1
      have h2 : ∀ te ∈ pst.tbls, 0 ≤ te.2.amtIn := (hInv _ (lookupA_mem hps)).2
      have h3 : 0 ≤ pts.amtIn := h2 _ (lookupA_mem hts)
      simp only [addEvent, setPT]
      refine invIn_upsert hInv ?_ (invIn_tblsUpsert h2 ?_) <;> dsimp only <;> linarith

theorem finalizeTable_invIn (st : St) (e : String × TState) (s : St)
    (hInv : InvIn st.players)
    (h : finalizeTable st e = Except.ok s) : InvIn s.players := by
  unfold finalizeTable at h
  split at h
  · exact absurd h (by simp)
  · rename_i time hlt
    simp only [Except.ok.injEq] at h
    subst h
    refine foldl_preserve (fun a b => InvIn a.players → InvIn b.players)
        (fun _ hi => hi) (fun _ _ _ hab hbc hi => hbc (hab hi)) _ ?_ _ st hInv
    intro a p hi
    exact closeOutFinal_invIn time e.1 e.2.last p a hi

theorem finalize_invIn (st s : St) (hInv : InvIn st.players)
    (h : finalize st = Except.ok s) : InvIn s.players := by
  unfold finalize at h
  exact foldlM_preserve (fun a b => InvIn a.players → InvIn b.players)
    (fun _ hi => hi) (fun _ _ _ hab hbc hi => hbc (hab hi))
    finalizeTable (fun a e b hstep hi => finalizeTable_invIn a e b hi hstep)
    _ st s h hInv

theorem sessionFinal_invIn (skip : Bool) (hs : List Hand) (s : St)
    (h : sessionFinal skip hs = Except.ok s) : InvIn s.players := by
  unfold sessionFinal at h
  cases hr : runSession skip hs with
  | error e =>
    rw [hr] at h
    simp [Bind.bind, Except.bind] at h
  | ok st =>
    rw [hr] at h
    simp only [Bind.bind, Except.bind] at h
    exact finalize_invIn st s (runSession_invIn skip hs st hr) h

end PLM

namespace PLM

/-- Hand 1 of the C9 counterexample session: Alice buys in for 100 and then
contributes 150 to the pot, driving her remaining stack negative. -/
def c9Hand1 : Hand :=
  { num := "200", localSeq := "1", time := 10, table := some "T",
    text := ["Table: T", "Seat 1: Alice (100)",
             "Rake(0) Pot(0) Players (Alice: 150)"] }

/-- Hand 2 of the C9 counterexample session: Alice is absent, so the sweep
books her (negative) remaining stack as an outbound amount. -/
def c9Hand2 : Hand :=
  { num := "201", localSeq := "2", time := 20, table := some "T",
    text := ["Table: T", "Seat 1: Bob (10)"] }

/-- Counterexample to C9 as stated: after replaying the two-hand session in
which Alice contributes more than her stack, her accumulated totalOut and her
per-table amountOut both equal -50, which is negative.  (The contribution
handler, lines 530-538 of the script, debits LATEST without any floor; the
sweep, lines 542-554, then adds the negative LATEST to amountOut.) -/
theorem C9_counterexample :
    (runSession false [c9Hand1, c9Hand2]).map
        (fun st => (lookupA "Alice" st.players).map
          (fun pst => (pst.tOut, (lookupA "T" pst.tbls).map PTState.amtOut))) =
      Except.ok (some (-50, some (-50))) ∧ ¬ ((0:ℚ) ≤ -50) := by
  refine ⟨?_, by norm_num⟩
  with_unfolding_all rfl

/-- C9 (amended): the inbound side of the ledger is genuinely invariant.
Starting from any state whose players all have non-negative totalIn and
non-negative per-table amountIn, every single line-processing step and every
end-of-hand sweep preserves that property; consequently every successfully
replayed session, before and after finalization, satisfies it at every point.
(The outbound side has no such invariant: see the counterexample, where a pot
contribution exceeding the stack makes totalOut and amountOut negative.) -/
theorem C9_in_nonneg :
    (∀ st, InvIn st.players → ∀ time tbl hand line s,
        processLine time tbl hand st line = Except.ok s → InvIn s.players) ∧
    (∀ st, InvIn st.players → ∀ time tbl hand text,
        InvIn (sweepStep time tbl hand text st).players) ∧
    (∀ skip hs s, runSession skip hs = Except.ok s → InvIn s.players) ∧
    (∀ skip hs s, sessionFinal skip hs = Except.ok s → InvIn s.players) := by
  refine ⟨?_, ?_, ?_, ?_⟩
  · exact fun st hi time tbl hand line s h => processLine_invIn time tbl hand st line s hi h
  · exact fun st hi time tbl hand text => sweepStep_invIn time tbl hand text st hi
  · exact fun skip hs s h => runSession_invIn skip hs s h
  · exact fun skip hs s h => sessionFinal_invIn skip hs s h

/-- Final state of the two-hand C9 session, used by the witness. -/
def c9wSt : St :=
  { players := [("Alice",
      { tIn := 100, tOut := -50,
        tbls := [("T",
          { first := 100, amtIn := 100, amtOut := -50, latest := 0,
            waiting := some true, left := true })] }),
      ("Bob",
      { tIn := 10, tOut := 0,
        tbls := [("T",
          { first := 10, amtIn := 10, amtOut := 0, latest := 10,
            waiting := some false, left := false })] })],
    tbls := [("T",
      { count := 2, skipped := 0, startHands := true, earliest := some 10,
        latestT := some 20, last := "201" })],
    events := [
      { time := 10, table := "T", hand := "200", player := "Alice",
        action := "initial buy in", inAmt := some 100, outAmt := none },
      { time := 20, table := "T", hand := "201", player := "Bob",
        action := "initial buy in", inAmt := some 10, outAmt := none },
      { time := 20, table := "T", hand := "201", player := "Alice",
        action := "stood up with", inAmt := none, outAmt := some (-50) }],
    warnings := 0, ghostWins := 0, ghostContribs := 150 }

/-- Witness for C9: the session-level part of the theorem applied to the
concrete two-hand session, whose replay succeeds with the concrete final
state; its inbound ledger entries are all non-negative. -/
theorem C9_in_nonneg_witness : InvIn c9wSt.players :=
  C9_in_nonneg.2.2.1 false [c9Hand1, c9Hand2] c9wSt (by with_unfolding_all rfl)

end PLM

namespace PLM

/-- Sum over all players of totalIn minus totalOut. -/
def inOutSum (ps : List (String × PState)) : ℚ :=
  sumA (fun pst => pst.tIn - pst.tOut) ps

/-- Sum over all players and all their tables of the current latestStack. -/
def latSum (ps : List (String × PState)) : ℚ :=
  sumA (fun pst => sumA PTState.latest pst.tbls) ps

/-- Sum over all players and tables of the stacks still on the table in the
final state. -/
def totalLatest (st : St) : ℚ := latSum st.players

/-- Conserved accounting measure: ledger net, minus chips still on tables,
minus pot contributions not yet claimed back, plus pot wins.  Every replay
step preserves this quantity, and it starts at zero. -/
def chipMeasure (st : St) : ℚ :=
  inOutSum st.players - latSum st.players - st.ghostContribs + st.ghostWins

theorem netBalanceOf_eq (st : St) : netBalanceOf st = inOutSum st.players := by
  unfold netBalanceOf inOutSum
  have hfold : ∀ (ps : List (String × PState)) (nb : ℚ),
      ps.foldl
        (fun nb pe =>
          let cashIn := pe.2.tIn
          let cashOut := pe.2.tOut
          if cashIn = cashOut then nb
          else if cashIn > cashOut then nb + (cashIn - cashOut)
          else nb - (cashOut - cashIn)) nb =
        nb + sumA (fun pst => pst.tIn - pst.tOut) ps := by
    intro ps
    induction ps with
    | nil =>
      intro nb
      simp [sumA]
    | cons pe tl ih =>
      intro nb
      rw [List.foldl_cons]
      dsimp only
      by_cases h1 : pe.2.tIn = pe.2.tOut
      · rw [if_pos h1, ih, sumA_cons, h1]
        ring
      · rw [if_neg h1]
        by_cases h2 : pe.2.tIn > pe.2.tOut
        · rw [if_pos h2, ih, sumA_cons]
          ring
        · rw [if_neg h2, ih, sumA_cons]
          ring
  rw [hfold]
  ring

theorem sums_isNewPlayer (check tbl : String) (ps : List (String × PState)) :
    inOutSum (isNewPlayer check tbl ps).2 = inOutSum ps ∧
    latSum (isNewPlayer check tbl ps).2 = latSum ps := by
  unfold isNewPlayer
  split
  · rename_i hq
    dsimp only
    constructor
    · unfold inOutSum
      rw [sumA_upsertA_none _ _ hq]
      simp [emptyP]
    · unfold latSum
      rw [sumA_upsertA_none _ _ hq]
      simp [emptyP, emptyPT, sumA]
  · rename_i pst hq
    split
    · rename_i hq₂
      dsimp only
      constructor
      · unfold inOutSum
        rw [sumA_upsertA_found _ _ hq]
        ring
      · unfold latSum
        rw [sumA_upsertA_found _ _ hq]
        dsimp only
        rw [sumA_upsertA_none _ _ hq₂]
        simp [emptyPT]
    · exact ⟨rfl, rfl⟩

end PLM

namespace PLM

theorem isNewPlayer_true {check tbl : String} {ps : List (String × PState)}
    {isNew : Bool} {ps1 : List (String × PState)}
    (hin : isNewPlayer check tbl ps = (isNew, ps1)) {pst : PState} {pts : PTState}
    (hps : lookupA check ps1 = some pst) (hts : lookupA tbl pst.tbls = some pts)
    (hNew : isNew = true) : pts = emptyPT := by
  unfold isNewPlayer at hin
  split at hin
  · simp only [Prod.mk.injEq] at hin
    obtain ⟨-, rfl⟩ := hin
    rw [lookupA_upsertA_self] at hps
    simp only [Option.some.injEq] at hps
    subst hps
    simp only [] at hts
    simp [lookupA] at hts
    exact hts.symm
  · rename_i pst₀ hq
    split at hin
    · simp only [Prod.mk.injEq] at hin
      obtain ⟨-, rfl⟩ := hin
      rw [lookupA_upsertA_self] at hps
      simp only [Option.some.injEq] at hps
      subst hps
      simp only [] at hts
      rw [lookupA_upsertA_self] at hts
      simp only [Option.some.injEq] at hts
      exact hts.symm
    · simp only [Prod.mk.injEq] at hin
      obtain ⟨hfalse, -⟩ := hin
      rw [← hfalse] at hNew
      exact absurd hNew (by simp)

theorem seatCore_meas (time : ℕ) (tbl hand p : String) (stack : ℚ) (st s : St)
    (h : seatCore time tbl hand p stack st = Except.ok s) :
    chipMeasure s = chipMeasure st := by
  unfold seatCore at h
  rcases hin : isNewPlayer p tbl st.players with ⟨isNew, ps1⟩
  rw [hin] at h
  simp only [] at h
  have hsums := sums_isNewPlayer p tbl st.players
  rw [hin] at hsums
  simp only [] at hsums
  have hm1 : chipMeasure { st with players := ps1 } = chipMeasure st := by
    unfold chipMeasure
    dsimp only
    rw [hsums.1, hsums.2]
  split at h
  · exact absurd h (by simp)
  · rename_i pst pts hg
    obtain ⟨hps0, hts⟩ := getPT_eq hg
    have hps : lookupA p ps1 = some pst := hps0
    split at h
    · rename_i hNew
      have hpts : pts = emptyPT := isNewPlayer_true hin hps hts hNew
      simp only [Except.ok.injEq] at h
      subst h
      rw [← hm1]
      simp only [chipMeasure, inOutSum, latSum, addEvent, setPT]
      rw [sumA_upsertA_found (fun pst => pst.tIn - pst.tOut) _ hps,
          sumA_upsertA_found (fun pst => sumA PTState.latest pst.tbls) _ hps]
      dsimp only
      rw [sumA_upsertA_found PTState.latest _ hts, hpts]
      simp only [emptyPT]
      ring
    · repeat' split at h
      all_goals try simp only [Except.ok.injEq, reduceCtorEq] at h
      all_goals try subst h
      all_goals rw [← hm1]
      all_goals first
        | rfl
        | (simp only [chipMeasure, inOutSum, latSum, addEvent, setPT]
           rw [sumA_upsertA_found (fun pst => pst.tIn - pst.tOut) _ hps,
               sumA_upsertA_found (fun pst => sumA PTState.latest pst.tbls) _ hps]
           dsimp only
           rw [sumA_upsertA_found PTState.latest _ hts]
           ring)

theorem setFlags_meas (p tbl : String) (sitFlag : Bool) (st s : St)
    (h : setFlags p tbl sitFlag st = Except.ok s) :
    chipMeasure s = chipMeasure st := by
  unfold setFlags at h
  split at h
  · exact absurd h (by simp)
  · rename_i pst pts hg
    obtain ⟨hps, hts⟩ := getPT_eq hg
    simp only [Except.ok.injEq] at h
    subst h
    simp only [chipMeasure, inOutSum, latSum, setPT]
    rw [sumA_upsertA_found (fun pst => pst.tIn - pst.tOut) _ hps,
        sumA_upsertA_found (fun pst => sumA PTState.latest pst.tbls) _ hps]
    dsimp only
    rw [sumA_upsertA_found PTState.latest _ hts]
    ring

theorem seatStep_meas (time : ℕ) (tbl hand p : String) (stack : ℚ)
    (sitFlag : Bool) (st s : St)
    (h : seatStep time tbl hand p stack sitFlag st = Except.ok s) :
    chipMeasure s = chipMeasure st := by
  unfold seatStep at h
  cases hc : seatCore time tbl hand p stack st with
  | error e => rw [hc] at h; simp [Bind.bind, Except.bind] at h
  | ok st₁ =>
    rw [hc] at h
    simp only [Bind.bind, Except.bind] at h
    exact (setFlags_meas p tbl sitFlag st₁ s h).trans
      (seatCore_meas time tbl hand p stack st st₁ hc)

theorem addOnStep_meas (time : ℕ) (tbl hand p : String) (additional : ℚ)
    (st s : St) (h : addOnStep time tbl hand p additional st = Except.ok s) :
    chipMeasure s = chipMeasure st := by
  unfold addOnStep at h
  rcases hin : isNewPlayer p tbl st.players with ⟨isNew, ps1⟩
  rw [hin] at h
  simp only [] at h
  have hsums := sums_isNewPlayer p tbl st.players
  rw [hin] at hsums
  simp only [] at hsums
  have hm1 : chipMeasure { st with players := ps1 } = chipMeasure st := by
    unfold chipMeasure
    dsimp only
    rw [hsums.1, hsums.2]
  split at h
  · exact absurd h (by simp)
  · rename_i pst pts hg
    obtain ⟨hps0, hts⟩ := getPT_eq hg
    have hps : lookupA p ps1 = some pst := hps0
    simp only [Except.ok.injEq] at h
    subst h
    rw [← hm1]
    simp only [chipMeasure, inOutSum, latSum, addEvent, setPT]
    rw [sumA_upsertA_found (fun pst => pst.tIn - pst.tOut) _ hps,
        sumA_upsertA_found (fun pst => sumA PTState.latest pst.tbls) _ hps]
    dsimp only
    rw [sumA_upsertA_found PTState.latest _ hts]
    ring

theorem winStep_meas (tbl p : String) (win : ℚ) (st s : St)
    (h : winStep tbl p win st = Except.ok s) :
    chipMeasure s = chipMeasure st := by
  unfold winStep at h
  split at h
  · exact absurd h (by simp)
  · rename_i pst hq
    split at h
    · exact absurd h (by simp)
    · rename_i pts hq₂
      simp only [Except.ok.injEq] at h
      subst h
      simp only [chipMeasure, inOutSum, latSum, setPT]
      rw [sumA_upsertA_found (fun pst => pst.tIn - pst.tOut) _ hq,
          sumA_upsertA_found (fun pst => sumA PTState.latest pst.tbls) _ hq]
      dsimp only
      rw [sumA_upsertA_found PTState.latest _ hq₂]
      ring

theorem contribStep_meas (tbl : String) (st s : St) (entry : List Char)
    (h : contribStep tbl st entry = Except.ok s) :
    chipMeasure s = chipMeasure st := by
  unfold contribStep at h
  repeat' split at h
  all_goals try simp only [Except.ok.injEq, reduceCtorEq] at h
  all_goals try subst h
  rename_i pcs acs hsp op pst hps ot pts hts oq amt hamt
  simp only [chipMeasure, inOutSum, latSum, setPT]
  rw [sumA_upsertA_found (fun pst => pst.tIn - pst.tOut) _ hps,
      sumA_upsertA_found (fun pst => sumA PTState.latest pst.tbls) _ hps]
  dsimp only
  rw [sumA_upsertA_found PTState.latest _ hts]
  ring

theorem closeOutSweep_meas (time : ℕ) (tbl hand p : String) (st : St) :
    chipMeasure (closeOutSweep time tbl hand p st) = chipMeasure st := by
  unfold closeOutSweep
  split
  · rfl
  · rename_i pst pts hg
    split
    · rfl
    · obtain ⟨hps, hts⟩ := getPT_eq hg
      simp only [chipMeasure, inOutSum, latSum, addEvent, setPT]
      rw [sumA_upsertA_found (fun pst => pst.tIn - pst.tOut) _ hps,
          sumA_upsertA_found (fun pst => sumA PTState.latest pst.tbls) _ hps]
      dsimp only
      rw [sumA_upsertA_found PTState.latest _ hts]
      ring

theorem closeOutFinal_meas (time : ℕ) (tbl hand p : String) (st : St) :
    chipMeasure (closeOutFinal time tbl hand p st) = chipMeasure st := by
  unfold closeOutFinal
  split
  · rfl
  · rename_i pst pts hg
    split
    · rfl
    · obtain ⟨hps, hts⟩ := getPT_eq hg
      simp only [chipMeasure, inOutSum, latSum, addEvent, setPT]
      rw [sumA_upsertA_found (fun pst => pst.tIn - pst.tOut) _ hps,
          sumA_upsertA_found (fun pst => sumA PTState.latest pst.tbls) _ hps]
      dsimp only
      rw [sumA_upsertA_found PTState.latest _ hts]
      ring

end PLM

namespace PLM

theorem seatPart_meas (time : ℕ) (tbl hand : String) (line : String) (st s : St)
    (h : seatPart time tbl hand line st = Except.ok s) :
    chipMeasure s = chipMeasure st := by
  unfold seatPart at h
  repeat' split at h
  all_goals try simp only [Except.ok.injEq, reduceCtorEq] at h
  all_goals try subst h
  all_goals first
    | rfl
    | exact seatStep_meas _ _ _ _ _ _ _ _ h

theorem addOnPart_meas (time : ℕ) (tbl hand : String) (line : String) (st s : St)
    (h : addOnPart time tbl hand line st = Except.ok s) :
    chipMeasure s = chipMeasure st := by
  unfold addOnPart at h
  repeat' split at h
  all_goals try simp only [Except.ok.injEq, reduceCtorEq] at h
  all_goals try subst h
  all_goals first
    | rfl
    | exact addOnStep_meas _ _ _ _ _ _ _ h

theorem winPart_meas (tbl : String) (line : String) (st s : St)
    (h : winPart tbl line st = Except.ok s) :
    chipMeasure s = chipMeasure st := by
  unfold winPart at h
  repeat' split at h
  all_goals try simp only [Except.ok.injEq, reduceCtorEq] at h
  all_goals try subst h
  all_goals first
    | rfl
    | exact winStep_meas _ _ _ _ _ h

theorem potPart_meas (tbl : String) (line : String) (st s : St)
    (h : potPart tbl line st = Except.ok s) :
    chipMeasure s = chipMeasure st := by
  unfold potPart at h
  repeat' split at h
  all_goals try simp only [Except.ok.injEq, reduceCtorEq] at h
  all_goals try subst h
  all_goals first
    | rfl
    | exact foldlM_preserve (fun a b => chipMeasure b = chipMeasure a)
        (fun _ => rfl) (fun _ _ _ hab hbc => hbc.trans hab)
        (contribStep tbl) (fun a e b hstep => contribStep_meas tbl a b e hstep)
        _ st s h

theorem processLine_meas (time : ℕ) (tbl hand : String) (st : St) (line : String)
    (s : St) (h : processLine time tbl hand st line = Except.ok s) :
    chipMeasure s = chipMeasure st := by
  unfold processLine at h
  cases hA : seatPart time tbl hand line st with
  | error e =>
    rw [hA] at h
    simp [exceptBind_error] at h
  | ok sA =>
    rw [hA, exceptBind_ok] at h
    cases hB : addOnPart time tbl hand line sA with
    | error e =>
      rw [hB] at h
      simp [exceptBind_error] at h
    | ok sB =>
      rw [hB, exceptBind_ok] at h
      cases hC : winPart tbl line sB with
      | error e =>
        rw [hC] at h
        simp [exceptBind_error] at h
      | ok sC =>
        rw [hC, exceptBind_ok] at h
        exact ((potPart_meas tbl line sC s h).trans
          ((winPart_meas tbl line sB sC hC).trans
            (addOnPart_meas time tbl hand line sA sB hB))).trans
          (seatPart_meas time tbl hand line st sA hA)

theorem sweepStep_meas (time : ℕ) (tbl hand : String) (text : List String)
    (st : St) : chipMeasure (sweepStep time tbl hand text st) = chipMeasure st := by
  unfold sweepStep
  refine foldl_preserve (fun a b => chipMeasure b = chipMeasure a)
      (fun _ => rfl) (fun _ _ _ hab hbc => hbc.trans hab) _ ?_ _ st
  intro a q
  dsimp only
  split
  · rfl
  · exact closeOutSweep_meas time tbl hand q a

theorem replayBody_meas (tbl : String) (hh : Hand) (st s : St)
    (h : replayBody tbl hh st = Except.ok s) :
    chipMeasure s = chipMeasure st := by
  unfold replayBody at h
  split at h
  · exact absurd h (by simp)
  · rename_i st₁ hfold
    simp only [Except.ok.injEq] at h
    subst h
    refine (sweepStep_meas _ _ _ _ _).trans ?_
    exact foldlM_preserve (fun a b => chipMeasure b = chipMeasure a)
      (fun _ => rfl) (fun _ _ _ hab hbc => hbc.trans hab)
      (processLine hh.time tbl hh.num)
      (fun a l b hstep => processLine_meas hh.time tbl hh.num a l b hstep)
      _ st st₁ hfold

theorem replayHand_meas (st : St) (hh : Hand) (s : St)
    (h : replayHand st hh = Except.ok s) : chipMeasure s = chipMeasure st := by
  unfold replayHand at h
  repeat' split at h
  all_goals try simp only [] at h
  all_goals try simp only [Except.ok.injEq, reduceCtorEq] at h
  all_goals try subst h
  all_goals first
    | rfl
    | exact (replayBody_meas _ _ _ _ h).trans rfl

theorem replayHands_meas (st : St) (hs : List Hand) (s : St)
    (h : replayHands st hs = Except.ok s) : chipMeasure s = chipMeasure st := by
  unfold replayHands at h
  exact foldlM_preserve (fun a b => chipMeasure b = chipMeasure a)
    (fun _ => rfl) (fun _ _ _ hab hbc => hbc.trans hab)
    replayHand (fun a hd b hstep => replayHand_meas a hd b hstep)
    _ st s h

theorem chipMeasure_initSt (tbls : List (String × TState)) :
    chipMeasure (initSt tbls) = 0 := by
  simp [chipMeasure, initSt, inOutSum, latSum, sumA]

theorem runSession_meas (skip : Bool) (hs : List Hand) (s : St)
    (h : runSession skip hs = Except.ok s) : chipMeasure s = 0 := by
  unfold runSession at h
  rw [replayHands_meas _ _ _ h]
  exact chipMeasure_initSt _

theorem finalizeTable_meas (st : St) (e : String × TState) (s : St)
    (h : finalizeTable st e = Except.ok s) : chipMeasure s = chipMeasure st := by
  unfold finalizeTable at h
  split at h
  · exact absurd h (by simp)
  · rename_i time hlt
    simp only [Except.ok.injEq] at h
    subst h
    refine foldl_preserve (fun a b => chipMeasure b = chipMeasure a)
        (fun _ => rfl) (fun _ _ _ hab hbc => hbc.trans hab) _ ?_ _ st
    intro a q
    exact closeOutFinal_meas time e.1 e.2.last q a

theorem finalize_meas (st s : St) (h : finalize st = Except.ok s) :
    chipMeasure s = chipMeasure st := by
  unfold finalize at h
  exact foldlM_preserve (fun a b => chipMeasure b = chipMeasure a)
    (fun _ => rfl) (fun _ _ _ hab hbc => hbc.trans hab)
    finalizeTable (fun a e b hstep => finalizeTable_meas a e b hstep)
    _ st s h

theorem sessionFinal_meas (skip : Bool) (hs : List Hand) (s : St)
    (h : sessionFinal skip hs = Except.ok s) : chipMeasure s = 0 := by
  unfold sessionFinal at h
  cases hr : runSession skip hs with
  | error e =>
    rw [hr] at h
    simp [Bind.bind, Except.bind] at h
  | ok st =>
    rw [hr] at h
    simp only [Bind.bind, Except.bind] at h
    rw [finalize_meas st s h]
    exact runSession_meas skip hs st hr

end PLM

namespace PLM

/-- Single hand of the C1 counterexample session: Alice buys in for 100 and
wins a 20 pot that nobody contributed to. -/
def c1Hand : Hand :=
  { num := "300", localSeq := "1", time := 10, table := some "T",
    text := ["Table: T", "Seat 1: Alice (100)", "Alice wins the Pot (20)"] }

/-- Counterexample to C1 as stated: the fully replayed and finalized
one-hand session in which Alice wins an uncontributed 20 pot has session net
balance -20, not 0.  The replay credits pot wins to LATEST without checking
them against pot contributions, so chips are conserved only when the log's
wins and contributions balance; the sum of (totalIn - totalOut) is not
identically zero. -/
theorem C1_counterexample :
    sessionNet false [c1Hand] = Except.ok (-20) ∧ ((-20 : ℚ) ≠ 0) := by
  refine ⟨?_, by norm_num⟩
  with_unfolding_all rfl

/-- C1 (amended): the accounting identity that actually holds.  For every
session whose replay (and finalization) succeeds, the session net balance
Σ (totalIn - totalOut) equals the pot contributions minus the pot wins plus
the stacks still sitting on the tables.  The balance is therefore 0 exactly
when the log's pot flows cancel and every stack was closed out at zero, and
the end-to-end check measures log consistency rather than being identically
zero. -/
theorem C1_conservation :
    (∀ skip hs st, runSession skip hs = Except.ok st →
        netBalanceOf st = st.ghostContribs - st.ghostWins + totalLatest st) ∧
    (∀ skip hs st, sessionFinal skip hs = Except.ok st →
        netBalanceOf st = st.ghostContribs - st.ghostWins + totalLatest st) := by
  constructor
  · intro skip hs st h
    have hm : chipMeasure st = 0 := runSession_meas skip hs st h
    rw [netBalanceOf_eq]
    unfold chipMeasure at hm
    unfold totalLatest
    linarith
  · intro skip hs st h
    have hm : chipMeasure st = 0 := sessionFinal_meas skip hs st h
    rw [netBalanceOf_eq]
    unfold chipMeasure at hm
    unfold totalLatest
    linarith

/-- Final state of the finalized one-hand C1 session, used by the witness. -/
def c1wSt : St :=
  { players := [("Alice",
      { tIn := 100, tOut := 120,
        tbls := [("T",
          { first := 100, amtIn := 100, amtOut := 120, latest := 0,
            waiting := some false, left := true })] })],
    tbls := [("T",
      { count := 1, skipped := 0, startHands := true, earliest := some 10,
        latestT := some 10, last := "300" })],
    events := [
      { time := 10, table := "T", hand := "300", player := "Alice",
        action := "initial buy in", inAmt := some 100, outAmt := none },
      { time := 10, table := "T", hand := "300", player := "Alice",
        action := "ended table with", inAmt := none, outAmt := some 120 }],
    warnings := 0, ghostWins := 20, ghostContribs := 0 }

/-- Witness for C1: the identity applied to the concrete finalized one-hand
session (net balance -20 = 0 contributed - 20 won + 0 left on the table). -/
theorem C1_conservation_witness :
    netBalanceOf c1wSt = c1wSt.ghostContribs - c1wSt.ghostWins + totalLatest c1wSt :=
  C1_conservation.2 false [c1Hand] c1wSt (by with_unfolding_all rfl)

end PLM
